import Mathlib

/-!
Verification of the workspace-manager engine of this repository.

The engine exists in several rewritten variants in the repository:
the Obsidian-plugin variant (class `WorkspaceManager` with transactions,
atomic writes and backup pruning) and the offline Node variant
(`offline-manager/src/workspaceManager.ts`).  Both are embedded below:
shared tree types and the Tree Navigator first, then the plugin manager
in namespace `Plugin` and the offline manager in namespace `Offline`.

Modelling conventions:
* `LayoutComponent` (TS interface with optional `children`) becomes the
  mutual inductive family `LC` / `Kids` / `Forest`; `Kids.none` models a
  JavaScript `undefined` children field, `Kids.some f` a present array
  (possibly empty, which is truthy in JavaScript).  Sizing metadata
  (`width`, `collapsed`, `currentTab`) is never read or written by any
  embedded function and is omitted from the model.
* File contents are modelled up to JSON parsing: `Bytes.wsDoc d` is the
  serialized form of document `d` (JSON.stringify is injective on
  documents, so equality of `Bytes` is byte identity), `Bytes.garbage n`
  stands for any content on which JSON.parse throws.
* `new Date().toISOString()` / `Date.now()` are modelled by a monotone
  clock in the state; `tsStr` is an injective, lexicographically monotone
  encoding of the clock value, which is exactly the property the code
  relies on for its millisecond-resolution sortable timestamps.
* Filesystem paths touched by the engine are enumerated by `FPath`;
  I/O faults are injected by an oracle indexed by the number of
  adapter/fs primitive calls made so far.
-/

/-- Discriminant of a layout node: `split`, `tabs` or `leaf`. -/
inductive NType where
  | split | tabs | leaf
deriving DecidableEq

/-- The `state` record of a leaf: `type` tag, nested `state.file`
(the content path), optional `icon` and `title`.  The nested
`state` object's other dynamic keys are never read by the engine. -/
structure LeafState where
  vtype : String
  file : Option String
  icon : Option String
  title : Option String
deriving DecidableEq

mutual

/-- A layout node (`LayoutComponent` in the source): id, discriminant,
optional ordered children, optional leaf state, optional direction. -/
inductive LC where
  | mk (id : String) (ntype : NType) (children : Kids)
       (state : Option LeafState) (direction : Option String) : LC

/-- An optional children array: `none` is a JavaScript `undefined`
children field, `some f` a present (possibly empty) array. -/
inductive Kids where
  | none : Kids
  | some (f : Forest) : Kids

/-- An ordered list of child nodes. -/
inductive Forest where
  | nil : Forest
  | cons (c : LC) (f : Forest) : Forest

end

mutual
def LC.beq : LC → LC → Bool
  | .mk i t ch st d, .mk i' t' ch' st' d' =>
    i = i' && t = t' && Kids.beq ch ch' && st = st' && d = d'
def Kids.beq : Kids → Kids → Bool
  | .none, .none => true
  | .some f, .some f' => Forest.beq f f'
  | _, _ => false
def Forest.beq : Forest → Forest → Bool
  | .nil, .nil => true
  | .cons c f, .cons c' f' => LC.beq c c' && Forest.beq f f'
  | _, _ => false
end

mutual
theorem LC.beq_iff_node : ∀ a b : LC, LC.beq a b = true ↔ a = b
  | .mk i t ch st d, .mk i' t' ch' st' d' => by
    simp only [LC.beq, Bool.and_eq_true, decide_eq_true_eq, LC.mk.injEq]
    rw [Kids.beq_iff_kids]
    tauto
theorem Kids.beq_iff_kids : ∀ a b : Kids, Kids.beq a b = true ↔ a = b
  | .none, .none => by simp [Kids.beq]
  | .none, .some _ => by simp [Kids.beq]
  | .some _, .none => by simp [Kids.beq]
  | .some f, .some f' => by
    simp only [Kids.beq, Kids.some.injEq]
    rw [Forest.beq_iff_forest]
theorem Forest.beq_iff_forest : ∀ a b : Forest, Forest.beq a b = true ↔ a = b
  | .nil, .nil => by simp [Forest.beq]
  | .nil, .cons _ _ => by simp [Forest.beq]
  | .cons _ _, .nil => by simp [Forest.beq]
  | .cons c f, .cons c' f' => by
    simp only [Forest.beq, Bool.and_eq_true, Forest.cons.injEq]
    rw [LC.beq_iff_node, Forest.beq_iff_forest]
end

instance : DecidableEq LC := fun a b =>
  decidable_of_iff (LC.beq a b = true) (LC.beq_iff_node a b)
instance : DecidableEq Forest := fun a b =>
  decidable_of_iff (Forest.beq a b = true) (Forest.beq_iff_forest a b)
instance : DecidableEq Kids := fun a b =>
  decidable_of_iff (Kids.beq a b = true) (Kids.beq_iff_kids a b)

def LC.id : LC → String
  | .mk i _ _ _ _ => i

def LC.ntype : LC → NType
  | .mk _ t _ _ _ => t

def LC.children : LC → Kids
  | .mk _ _ ch _ _ => ch

def LC.state : LC → Option LeafState
  | .mk _ _ _ st _ => st

def LC.direction : LC → Option String
  | .mk _ _ _ _ d => d

/-- A derived tab record: `{id, filePath, title}` (the offline variant's
`TabInfo`; the plugin variant adds presentation-only fields the claims
never mention). -/
structure TabInfo where
  id : String
  filePath : String
  title : String
deriving DecidableEq

/-- One named layout (`WorkspaceLayout`): required `main` root, optional
auxiliary roots, focused node id, modification timestamp. -/
structure WL where
  main : LC
  left : Option LC := none
  right : Option LC := none
  active : String := ""
  mtime : String := ""
deriving DecidableEq

/-- The persisted document (`WorkspacesData`): named layouts plus the
active layout name.  JavaScript object keys are unique, so the record is
an association list looked up by first match. -/
structure WorkspacesData where
  workspaces : List (String × WL)
  active : String
deriving DecidableEq

def lookupWs : List (String × WL) → String → Option WL
  | [], _ => none
  | (k, w) :: rest, n => if k = n then some w else lookupWs rest n

/-- Assignment to a property of the `workspaces` object: replaces the
entry in place (all uses in the engine are on existing keys). -/
def setWs : List (String × WL) → String → WL → List (String × WL)
  | [], n, w => [(n, w)]
  | (k, w0) :: rest, n, w => if k = n then (k, w) :: rest else (k, w0) :: setWs rest n w

/-- JavaScript `file.split('/').pop() || ''`: text after the last `/`. -/
def lastSegAux (cur : List Char) : List Char → List Char
  | [] => cur
  | c :: rest => if c = '/' then lastSegAux [] rest else lastSegAux (cur ++ [c]) rest

def lastSeg (s : String) : String :=
  String.mk (lastSegAux [] s.data)

/-- JavaScript truthiness of `node.state?.state?.file`: the chain is
present and the string non-empty. -/
def tabFile (st : Option LeafState) : Option String :=
  match st with
  | some ls => match ls.file with
    | some f => if f = "" then none else some f
    | none => none
  | none => none

/-- Title resolution of `extractTabsFromWorkspace`:
`node.state.title || node.state.state.file.split('/').pop() || ''`. -/
def tabTitle (st : Option LeafState) (f : String) : String :=
  match st with
  | some ls => match ls.title with
    | some ttl => if ttl = "" then lastSeg f else ttl
    | none => lastSeg f
  | none => lastSeg f

mutual

/-- Recursive body of `extractTabsFromWorkspace`: a leaf with a truthy
`state.state.file` yields one tab record; otherwise the children (when
present) are visited depth-first, left to right. -/
def extractFromNode : LC → List TabInfo
  | .mk i t ch st _ =>
    match t, tabFile st with
    | .leaf, some f => [⟨i, f, tabTitle st f⟩]
    | _, _ =>
      match ch with
      | .some cs => extractFromForest cs
      | .none => []

def extractFromForest : Forest → List TabInfo
  | .nil => []
  | .cons c rest => extractFromNode c ++ extractFromForest rest

end

/-- `extractTabsFromWorkspace(workspace)`: flatten the `main` tree. -/
def extractTabsFromWorkspace (w : WL) : List TabInfo :=
  extractFromNode w.main

/-- Number of extracted tabs satisfying a predicate. -/
def countTabsP (P : TabInfo → Bool) (n : LC) : Nat :=
  ((extractFromNode n).filter P).length

/-- Number of extracted tabs carrying a given id. -/
def countTabsId (i : String) (n : LC) : Nat :=
  countTabsP (fun r => r.id = i) n

mutual

/-- Number of nodes of the whole tree carrying a given id. -/
def countIdNode (i : String) : LC → Nat
  | .mk j _ ch _ _ => (if j = i then 1 else 0) + countIdKids i ch

def countIdKids (i : String) : Kids → Nat
  | .none => 0
  | .some f => countIdForest i f

def countIdForest (i : String) : Forest → Nat
  | .nil => 0
  | .cons c rest => countIdNode i c + countIdForest i rest

end

mutual

/-- `findTabInWorkspace` of the plugin variant: scan a node's children;
a child whose `id` matches and whose type is `leaf` is returned together
with its parent; otherwise the search descends into the child first and
then continues with the remaining siblings. -/
def findInNode (tid : String) : LC → Option (LC × LC)
  | .mk i t ch st d =>
    match ch with
    | .none => none
    | .some f => findInForest tid (.mk i t ch st d) f

def findInForest (tid : String) (parent : LC) : Forest → Option (LC × LC)
  | .nil => none
  | .cons c rest =>
    if c.id = tid ∧ c.ntype = .leaf then some (c, parent)
    else
      match findInNode tid c with
      | some r => some r
      | none => findInForest tid parent rest

end

/-- `parent.children.filter(child => child.id !== tabId)`. -/
def filterForest (tid : String) : Forest → Forest
  | .nil => .nil
  | .cons c rest =>
    if c.id = tid then filterForest tid rest else .cons c (filterForest tid rest)

/-- Result of scanning one children list during removal: the match was a
direct child of the current parent, or it was removed deeper inside an
updated forest, or it was not found. -/
inductive RemRes where
  | direct : RemRes
  | inner (f : Forest) : RemRes
  | nothing : RemRes

mutual

/-- `removeTabFromWorkspace` of the plugin variant, as a pure function:
locate the first node whose `id` and `leaf` type match, in the order of
`findTabInWorkspace`, and filter that node out of its parent's children
list (the filter is by id alone, exactly as in the source). -/
def removeFromNode (tid : String) : LC → LC × Bool
  | .mk i t ch st d =>
    match ch with
    | .none => (.mk i t .none st d, false)
    | .some f =>
      match remForest tid f with
      | .direct => (.mk i t (.some (filterForest tid f)) st d, true)
      | .inner f' => (.mk i t (.some f') st d, true)
      | .nothing => (.mk i t (.some f) st d, false)

def remForest (tid : String) : Forest → RemRes
  | .nil => .nothing
  | .cons c rest =>
    if c.id = tid ∧ c.ntype = .leaf then .direct
    else
      match removeFromNode tid c with
      | (c', true) => .inner (.cons c' rest)
      | (_, false) =>
        match remForest tid rest with
        | .direct => .direct
        | .inner rest' => .inner (.cons c rest')
        | .nothing => .nothing

end

mutual

/-- `findFirstTabGroup` / `findFirstTabsNode`: depth-first pre-order
search for the first node of type `tabs`. -/
def findFirstTabGroup : LC → Option LC
  | .mk i t ch st d =>
    if t = .tabs then some (.mk i t ch st d)
    else
      match ch with
      | .none => none
      | .some f => findFirstInForest f

def findFirstInForest : Forest → Option LC
  | .nil => none
  | .cons c rest =>
    match findFirstTabGroup c with
    | some r => some r
    | none => findFirstInForest rest

end

def appendForest : Forest → LC → Forest
  | .nil, x => .cons x .nil
  | .cons c f, x => .cons c (appendForest f x)

mutual

/-- Push `tab` into the children of the first `tabs`-type node (the
in-tree effect of `targetTabs.children.push(tab)` after
`findFirstTabGroup` succeeded; a missing children field is initialised
to an empty array first, as in the source). -/
def insertNode (tab : LC) : LC → LC × Bool
  | .mk i t ch st d =>
    if t = .tabs then
      let f := match ch with | .some f => f | .none => .nil
      (.mk i t (.some (appendForest f tab)) st d, true)
    else
      match ch with
      | .none => (.mk i t .none st d, false)
      | .some f =>
        match insertForest tab f with
        | (f', b) => (.mk i t (.some f') st d, b)

def insertForest (tab : LC) : Forest → Forest × Bool
  | .nil => (.nil, false)
  | .cons c rest =>
    match insertNode tab c with
    | (c', true) => (.cons c' rest, true)
    | (_, false) =>
      match insertForest tab rest with
      | (rest', b) => (.cons c rest', b)

end

/-- `addTabToWorkspace` of the plugin variant, on the `main` root.
`tsId` is the fresh container id minted from the clock when the fallback
creates one.  If a `tabs` node exists the tab is pushed into the first
one; otherwise, when `main` is not a split or has no children array, the
original `main` is kept as sole child of `main` mutated into a vertical
split; in either fallback case a fresh empty `tabs` node is appended to
`main`'s children and the tab pushed into it. -/
def addTabToMain (tab : LC) (tsId : String) (main : LC) : LC :=
  match findFirstTabGroup main with
  | some _ => (insertNode tab main).1
  | none =>
    match main with
    | .mk i t ch st d =>
      let tabsNode : LC := .mk tsId .tabs (.some (.cons tab .nil)) none none
      if t ≠ .split ∨ ch = .none then
        .mk i .split (.some (.cons (.mk i t ch st d) (.cons tabsNode .nil))) st
          (some "vertical")
      else
        match ch with
        | .some f => .mk i t (.some (appendForest f tabsNode)) st d
        | .none => .mk i t (.some (.cons tabsNode .nil)) st d

/-- Whether the plugin fallback consumes a `Date.now()` call: it does
exactly when no `tabs` node exists in `main`. -/
def addNeedsFreshId (main : LC) : Bool :=
  (findFirstTabGroup main).isNone

/-! ## Errors, events, filesystem state and the effect monad -/

/-- A JavaScript exception: either a storage-layer rejection (an injected
I/O fault or a missing file) or a `throw new Error(msg)`. -/
inductive Err where
  | io (op : String)
  | thrown (msg : String)
deriving DecidableEq

/-- Trace events recording the transaction and maintenance calls the
engine makes, used to state ordering properties. -/
inductive Ev where
  | began | committed | rolledBack | rollbackNoop | pruneRan | pruneFailed | warned
deriving DecidableEq

/-- The filesystem locations the engine touches.  `backupFile ts` is
`<backupFolder>/workspaces-backup-<ts>.json`; `strayInBackupDir` is a
file in the backup folder whose name does not end in `.json`. -/
inductive FPath where
  | wsJson | wsTmp | wsBak | backupDir
  | backupFile (ts : String)
  | strayInBackupDir (name : String)
deriving DecidableEq

/-- File contents up to JSON parsing: `wsDoc d` is the serialization of
document `d` (JSON.stringify is injective on documents, so equality of
`Bytes` is byte identity), `garbage n` any content JSON.parse rejects. -/
inductive Bytes where
  | wsDoc (d : WorkspacesData)
  | garbage (n : Nat)
deriving DecidableEq

/-- A backup-path value as stored in `transactionBackupPath`:
`empty` is the `''` sentinel of the offline variant. -/
inductive PathStr where
  | empty
  | path (p : FPath)
deriving DecidableEq

def lookupFs : List (FPath × Bytes) → FPath → Option Bytes
  | [], _ => none
  | (q, b) :: rest, p => if q = p then some b else lookupFs rest p

def setFs : List (FPath × Bytes) → FPath → Bytes → List (FPath × Bytes)
  | [], p, b => [(p, b)]
  | (q, b0) :: rest, p, b => if q = p then (q, b) :: rest else (q, b0) :: setFs rest p b

def delFs : List (FPath × Bytes) → FPath → List (FPath × Bytes)
  | [], _ => []
  | (q, b) :: rest, p => if q = p then delFs rest p else (q, b) :: delFs rest p

/-- Whether a path lies in the backup folder (for `adapter.list`). -/
def inBackupDir : FPath → Bool
  | .backupFile _ => true
  | .strayInBackupDir _ => true
  | _ => false

/-- Engine state: filesystem, created folders, the monotone clock behind
`Date`, the count of storage primitives executed so far, the fault
oracle (call number `n` succeeds iff `oracle n`), the manager's
`transactionBackupPath` field and the event trace. -/
structure St where
  files : List (FPath × Bytes)
  dirs : List FPath := []
  clock : Nat := 0
  idx : Nat := 0
  oracle : Nat → Bool := fun _ => true
  txPath : Option PathStr := none
  trace : List Ev := []

/-- The effect monad: exceptions over mutable engine state. -/
abbrev M (α : Type) := ExceptT Err (StateM St) α

def runM {α : Type} (x : M α) (s : St) : Except Err α × St := x.run s

/-- Consume one storage-primitive slot; the oracle decides whether this
call is allowed to proceed or rejects with an I/O error. -/
def tickFS (op : String) : M Unit := do
  let s ← get
  set {s with idx := s.idx + 1}
  if s.oracle s.idx then pure () else throw (.io op)

def fsRead (p : FPath) : M Bytes := do
  tickFS "read"
  let s ← get
  match lookupFs s.files p with
  | some b => pure b
  | none => throw (.io "ENOENT")

def fsWrite (p : FPath) (b : Bytes) : M Unit := do
  tickFS "write"
  modify fun s => {s with files := setFs s.files p b}

def fsRemove (p : FPath) : M Unit := do
  tickFS "remove"
  modify fun s => {s with files := delFs s.files p}

def fsRename (src dst : FPath) : M Unit := do
  tickFS "rename"
  let s ← get
  match lookupFs s.files src with
  | some b => set {s with files := setFs (delFs s.files src) dst b}
  | none => throw (.io "ENOENT")

def fsExists (p : FPath) : M Bool := do
  tickFS "exists"
  let s ← get
  pure ((lookupFs s.files p).isSome || s.dirs.contains p)

def fsMkdir (p : FPath) : M Unit := do
  tickFS "mkdir"
  modify fun s => {s with dirs := p :: s.dirs}

def fsList (_dir : FPath) : M (List FPath) := do
  tickFS "list"
  let s ← get
  pure ((s.files.map (·.1)).filter inBackupDir)

/-- `tsStr n` models `new Date().toISOString()` (and `Date.now()`) at
clock value `n`: an injective encoding that is strictly monotone in the
lexicographic string order, which is the property the sortable
millisecond timestamps provide. -/
def tsStr (n : Nat) : String :=
  String.mk (List.replicate n 'a')

def getTime : M String := do
  let s ← get
  set {s with clock := s.clock + 1}
  pure (tsStr s.clock)

def emit (e : Ev) : M Unit :=
  modify fun s => {s with trace := s.trace ++ [e]}

def setTx (p : Option PathStr) : M Unit :=
  modify fun s => {s with txPath := p}

/-- `workspace.mtime = ts` on the named layout of the document. -/
def setMtimeDoc (d : WorkspacesData) (name : String) (ts : String) : WorkspacesData :=
  match lookupWs d.workspaces name with
  | none => d
  | some w => {d with workspaces := setWs d.workspaces name {w with mtime := ts}}

/-! ## The plugin variant of the manager -/

namespace Plugin

/-- `settings.maxBackups || 10` with default settings. -/
def maxBackups : Nat := 10

/-- The timestamp the regular expression
`workspaces-backup-(.+)\.json$` extracts from a listed path (a
non-matching name yields `''`). -/
def tsOfPath : FPath → String
  | .backupFile ts => ts
  | _ => ""

/-- `file.endsWith('.json')` for paths in the backup folder. -/
def endsWithJson : FPath → Bool
  | .backupFile _ => true
  | .wsJson => true
  | _ => false

/-- Lexicographic order on character lists by code point —
`localeCompare` restricted to the ASCII timestamps in play. -/
def lexLe : List Char → List Char → Bool
  | [], _ => true
  | _ :: _, [] => false
  | a :: as, b :: bs =>
    if a.toNat < b.toNat then true
    else if b.toNat < a.toNat then false
    else lexLe as bs

/-- The sort comparator of `pruneOldBackups`:
`(a, b) => timestampB.localeCompare(timestampA)`, i.e. order by the
extracted timestamp, newest first. -/
def tsDescLe (a b : FPath) : Bool :=
  lexLe (tsOfPath b).data (tsOfPath a).data

def insertDesc (x : FPath) : List FPath → List FPath
  | [] => [x]
  | y :: rest => if tsDescLe x y then x :: y :: rest else y :: insertDesc x rest

/-- `Array.prototype.sort` with the comparator above (a sorting function
is implementation-defined in JavaScript; on pairwise-distinct timestamps
every comparator-consistent sort produces the same list). -/
def sortDesc : List FPath → List FPath
  | [] => []
  | x :: rest => insertDesc x (sortDesc rest)

def getWorkspaces : M WorkspacesData :=
  tryCatch
    (do
      let b ← fsRead .wsJson
      match b with
      | .wsDoc d => pure d
      | .garbage _ => throw (.thrown "JSON.parse"))
    (fun _ => pure { workspaces := [], active := "" })

def ensureFolder : M Unit := do
  let e ← fsExists .backupDir
  if e then pure () else fsMkdir .backupDir

def pruneOldBackups : M Unit :=
  tryCatch
    (do
      emit .pruneRan
      let files ← fsList .backupDir
      let backupFiles := sortDesc (files.filter endsWithJson)
      if backupFiles.length > maxBackups then
        (backupFiles.drop maxBackups).forM fsRemove
      else pure ())
    (fun _ => emit .pruneFailed)

def createBackup : M FPath := do
  let ts ← getTime
  let backupName := FPath.backupFile ts
  tryCatch
    (do
      ensureFolder
      let cur ← fsRead .wsJson
      fsWrite backupName cur
      pruneOldBackups
      pure backupName)
    (fun e => do emit .warned; throw e)

def validateData (written : Bytes) : M Unit :=
  match written with
  | .wsDoc _ => pure ()
  | .garbage _ => throw (.thrown "Data validation failed")

def writeAtomically (data : Bytes) : M Unit :=
  tryCatch
    (do
      fsWrite .wsTmp data
      let written ← fsRead .wsTmp
      validateData written
      let e1 ← fsExists .wsJson
      if e1 then do
        let orig ← fsRead .wsJson
        fsWrite .wsBak orig
      else pure ()
      let e2 ← fsExists .wsJson
      if e2 then fsRemove .wsJson else pure ()
      fsRename .wsTmp .wsJson)
    (fun e => do
      let t ← fsExists .wsTmp
      if t then fsRemove .wsTmp else pure ()
      throw e)

def saveWorkspaces (d : WorkspacesData) : M Unit :=
  tryCatch
    (do
      let _ ← createBackup
      writeAtomically (.wsDoc d))
    (fun e => throw e)

def beginTransaction : M Unit := do
  emit .began
  let p ← createBackup
  setTx (some (.path p))

def commitTransaction : M Unit := do
  emit .committed
  setTx none

def rollbackTransaction : M Unit := do
  let s ← get
  match s.txPath with
  | none => emit .rollbackNoop
  | some .empty => emit .rollbackNoop
  | some (.path p) =>
    tryCatch
      (do
        emit .rolledBack
        let content ← fsRead p
        fsWrite .wsJson content
        setTx none)
      (fun _ => throw (.thrown "Failed to rollback"))

/-- The ids found in the source workspace (`findTabInWorkspace` per id;
ids not found are skipped). -/
def collectTabs (sw : WL) (ids : List String) : List LC :=
  ids.filterMap (fun tid => (findInNode tid sw.main).map (·.1))

/-- `addTabToWorkspace` applied to each tab in turn, against the
document (looking the layout up again each iteration models the
in-place mutation of the shared object).  The clock is consumed exactly
when the fallback mints a fresh `tabs-` id. -/
def addAllDoc : WorkspacesData → String → List LC → Nat → WorkspacesData × Nat
  | d, _, [], c => (d, c)
  | d, name, tab :: rest, c =>
    match lookupWs d.workspaces name with
    | none => addAllDoc d name rest c
    | some w =>
      let r : LC × Nat :=
        if addNeedsFreshId w.main then
          (addTabToMain tab ("tabs-" ++ tsStr c) w.main, c + 1)
        else (addTabToMain tab "" w.main, c)
      addAllDoc
        {d with workspaces := setWs d.workspaces name {w with main := r.1}}
        name rest r.2

/-- `removeTabFromWorkspace` applied to each id in turn. -/
def removeAllDoc : WorkspacesData → String → List String → WorkspacesData
  | d, _, [] => d
  | d, name, tid :: rest =>
    match lookupWs d.workspaces name with
    | none => removeAllDoc d name rest
    | some w =>
      let main' := (removeFromNode tid w.main).1
      let d' := {d with workspaces := setWs d.workspaces name {w with main := main'}}
      removeAllDoc d' name rest

/-- The in-memory document transform of `moveTabsBetweenWorkspaces`:
find all requested tabs in the source, add them to the target, remove
them (by id) from the source, then stamp both layouts' `mtime` from two
`Date` calls. -/
def moveDocCore (d : WorkspacesData) (src tgt : String) (ids : List String)
    (c : Nat) : WorkspacesData × Nat :=
  match lookupWs d.workspaces src with
  | none => (d, c)
  | some sw =>
    let tabs := collectTabs sw ids
    let r := addAllDoc d tgt tabs c
    let d2 := removeAllDoc r.1 src (tabs.map LC.id)
    let d3 := setMtimeDoc d2 src (tsStr r.2)
    let d4 := setMtimeDoc d3 tgt (tsStr (r.2 + 1))
    (d4, r.2 + 2)

def moveTabsBetweenWorkspaces (src tgt : String) (ids : List String) : M Bool :=
  tryCatch
    (do
      beginTransaction
      let d ← getWorkspaces
      match lookupWs d.workspaces src, lookupWs d.workspaces tgt with
      | some _, some _ => do
        let s ← get
        let r := moveDocCore d src tgt ids s.clock
        set {s with clock := r.2}
        saveWorkspaces r.1
        commitTransaction
        pure true
      | _, _ => throw (.thrown "Source or target workspace not found"))
    (fun _ => do rollbackTransaction; pure false)

/-- The in-memory document transform of `copyTabsBetweenWorkspaces`:
identical lookup, the found nodes are inserted into the target (the
plugin pushes the found node itself; in this value semantics the result
coincides with inserting the offline variant's deep clone), only the
target `mtime` is stamped. -/
def copyDocCore (d : WorkspacesData) (src tgt : String) (ids : List String)
    (c : Nat) : WorkspacesData × Nat :=
  match lookupWs d.workspaces src with
  | none => (d, c)
  | some sw =>
    let tabs := collectTabs sw ids
    let r := addAllDoc d tgt tabs c
    let d2 := setMtimeDoc r.1 tgt (tsStr r.2)
    (d2, r.2 + 1)

def copyTabsBetweenWorkspaces (src tgt : String) (ids : List String) : M Bool :=
  tryCatch
    (do
      beginTransaction
      let d ← getWorkspaces
      match lookupWs d.workspaces src, lookupWs d.workspaces tgt with
      | some _, some _ => do
        let s ← get
        let r := copyDocCore d src tgt ids s.clock
        set {s with clock := r.2}
        saveWorkspaces r.1
        commitTransaction
        pure true
      | _, _ => throw (.thrown "Source or target workspace not found"))
    (fun _ => do rollbackTransaction; pure false)

/-- Per-id removal loop of `deleteTabsFromWorkspace`, counting the ids
actually removed. -/
def deleteAllDoc : WorkspacesData → String → List String → Nat → WorkspacesData × Nat
  | d, _, [], k => (d, k)
  | d, name, tid :: rest, k =>
    match lookupWs d.workspaces name with
    | none => deleteAllDoc d name rest k
    | some w =>
      match removeFromNode tid w.main with
      | (main', true) =>
        deleteAllDoc
          {d with workspaces := setWs d.workspaces name {w with main := main'}}
          name rest (k + 1)
      | (_, false) => deleteAllDoc d name rest k

def deleteTabsFromWorkspace (name : String) (ids : List String) : M Bool :=
  tryCatch
    (do
      beginTransaction
      let d ← getWorkspaces
      match lookupWs d.workspaces name with
      | none => throw (.thrown "Workspace not found")
      | some _ => do
        let r := deleteAllDoc d name ids 0
        if r.2 > 0 then do
          let ts ← getTime
          saveWorkspaces (setMtimeDoc r.1 name ts)
        else pure ()
        commitTransaction
        pure true)
    (fun _ => do rollbackTransaction; pure false)

end Plugin

/-! ## The offline (Node) variant of the manager -/

namespace Offline

mutual

/-- `findTabRecursive(node, tabId, parent)`: the node itself is checked
first (a matching root has no parent and raises); otherwise the search
descends into the children left to right, passing the node as parent. -/
def findRecNode (tid : String) (parent : Option LC) : LC → Except Err (Option (LC × LC))
  | .mk i t ch st d =>
    if i = tid ∧ t = .leaf then
      match parent with
      | none => .error (.thrown "Found tab but it has no parent.")
      | some p => .ok (some (.mk i t ch st d, p))
    else
      match ch with
      | .none => .ok none
      | .some f => findRecForest tid (.mk i t ch st d) f

def findRecForest (tid : String) (parent : LC) : Forest → Except Err (Option (LC × LC))
  | .nil => .ok none
  | .cons c rest =>
    match findRecNode tid (some parent) c with
    | .error e => .error e
    | .ok (some r) => .ok (some r)
    | .ok none => findRecForest tid parent rest

end

/-- `parent.children.findIndex(c => c.id === tabId)` followed by
`splice(index, 1)`: remove the first child whose id matches (the
find is by id alone) and return it. -/
def spliceFirstId (tid : String) : Forest → Forest × Option LC
  | .nil => (.nil, none)
  | .cons c rest =>
    if c.id = tid then (rest, some c)
    else
      match spliceFirstId tid rest with
      | (rest', r) => (.cons c rest', r)

/-- Result of scanning one children list in the offline removal: the
match was a direct child of the scanned parent, or it was handled
deeper (with the updated forest and the removed node), or not found. -/
inductive OffScan where
  | here : OffScan
  | deeper (f : Forest) (removed : LC) : OffScan
  | nope : OffScan

mutual

/-- The per-id effect of the offline move loop below a given node:
locate the tab with `findTabRecursive`'s order and splice it out of its
parent's children, returning the updated node and the spliced element. -/
def remOffNode (tid : String) : LC → Option (LC × LC)
  | .mk i t ch st d =>
    match ch with
    | .none => none
    | .some f =>
      match remOffScan tid f with
      | .here =>
        match spliceFirstId tid f with
        | (f', some rem) => some (.mk i t (.some f') st d, rem)
        | (_, none) => none
      | .deeper f' rem => some (.mk i t (.some f') st d, rem)
      | .nope => none

def remOffScan (tid : String) : Forest → OffScan
  | .nil => .nope
  | .cons c rest =>
    if c.id = tid ∧ c.ntype = .leaf then .here
    else
      match remOffNode tid c with
      | some (c', rem) => .deeper (.cons c' rest) rem
      | none =>
        match remOffScan tid rest with
        | .here => .here
        | .deeper rest' rem => .deeper (.cons c rest') rem
        | .nope => .nope

end

/-- `findTabRecursive(main, tid, null)` followed by the splice: a
matching root raises the no-parent error; otherwise removal below. -/
def remOffTop (tid : String) (main : LC) : Except Err (Option (LC × LC)) :=
  if main.id = tid ∧ main.ntype = .leaf then
    .error (.thrown "Found tab but it has no parent.")
  else .ok (remOffNode tid main)

/-- The offline `addTabToWorkspace`: push into the first `tabs` node if
one exists; otherwise, when `main` is a split with a children array,
push a freshly minted `tabs` node holding the tab; otherwise log an
error and leave the layout unchanged (the tab is dropped). -/
def addOffTab (w : WL) (tab : LC) : M WL :=
  match findFirstTabGroup w.main with
  | some _ => pure {w with main := (insertNode tab w.main).1}
  | none =>
    match w.main with
    | .mk i t ch st d =>
      match t, ch with
      | .split, .some f => do
        let ts ← getTime
        let tabsNode : LC := .mk ("tabs-" ++ ts) .tabs (.some (.cons tab .nil)) none none
        pure {w with main := .mk i t (.some (appendForest f tabsNode)) st d}
      | _, _ => do
        emit .warned
        pure w

def getWorkspaces : M WorkspacesData :=
  tryCatch
    (do
      let b ← fsRead .wsJson
      match b with
      | .wsDoc d => pure d
      | .garbage _ => throw (.thrown "JSON.parse"))
    (fun _ => pure { workspaces := [], active := "" })

def ensureFolder : M Unit := fsMkdir .backupDir

def createBackup : M PathStr := do
  ensureFolder
  let ts ← getTime
  let backupPath := FPath.backupFile ts
  tryCatch
    (do
      let cur ← fsRead .wsJson
      fsWrite backupPath cur
      pure (.path backupPath))
    (fun _ => do emit .warned; pure .empty)

def writeAtomically (data : Bytes) : M Unit :=
  tryCatch
    (do
      fsWrite .wsTmp data
      fsRename .wsTmp .wsJson)
    (fun e => do
      tryCatch (fsRemove .wsTmp) (fun _ => pure ())
      throw e)

def saveWorkspaces (d : WorkspacesData) : M Unit :=
  writeAtomically (.wsDoc d)

def beginTransaction : M Unit := do
  emit .began
  let p ← createBackup
  setTx (some p)

def commitTransaction : M Unit := do
  emit .committed
  setTx none

def rollbackTransaction : M Unit := do
  let s ← get
  match s.txPath with
  | none => emit .rollbackNoop
  | some .empty => emit .rollbackNoop
  | some (.path p) => do
    emit .rolledBack
    tryCatch
      (do
        let c ← fsRead p
        writeAtomically c
        setTx none)
      (fun _ => do
        setTx none
        throw (.thrown "Failed to restore from backup during rollback."))

/-- One iteration of the offline move loop: find the tab in the source
layout (a matching root raises), splice it out, and add the spliced
node to the target layout. -/
def moveOne (d : WorkspacesData) (src tgt : String) (tid : String) : M WorkspacesData :=
  match lookupWs d.workspaces src with
  | none => pure d
  | some sw =>
    match remOffTop tid sw.main with
    | .error e => throw e
    | .ok none => pure d
    | .ok (some (main', removed)) => do
      let d1 := {d with workspaces := setWs d.workspaces src {sw with main := main'}}
      match lookupWs d1.workspaces tgt with
      | none => pure d1
      | some tw => do
        let tw' ← addOffTab tw removed
        pure {d1 with workspaces := setWs d1.workspaces tgt tw'}

def moveTabsBetweenWorkspaces (src tgt : String) (ids : List String) : M Bool := do
  beginTransaction
  tryCatch
    (do
      let d ← getWorkspaces
      match lookupWs d.workspaces src, lookupWs d.workspaces tgt with
      | some _, some _ => do
        let d1 ← ids.foldlM (fun dd tid => moveOne dd src tgt tid) d
        let ts1 ← getTime
        let d2 := setMtimeDoc d1 src ts1
        let ts2 ← getTime
        let d3 := setMtimeDoc d2 tgt ts2
        saveWorkspaces d3
        commitTransaction
        pure true
      | _, _ => throw (.thrown "Source or target workspace not found."))
    (fun e => do rollbackTransaction; throw e)

/-- One iteration of the offline copy loop: find the tab (a matching
root raises), deep-clone it (`JSON.parse(JSON.stringify(...))`, the
identity in this value semantics) and add the clone to the target. -/
def copyOne (d : WorkspacesData) (src tgt : String) (tid : String) : M WorkspacesData :=
  match lookupWs d.workspaces src with
  | none => pure d
  | some sw =>
    match findRecNode tid none sw.main with
    | .error e => throw e
    | .ok none => pure d
    | .ok (some (tab, _)) =>
      match lookupWs d.workspaces tgt with
      | none => pure d
      | some tw => do
        let tw' ← addOffTab tw tab
        pure {d with workspaces := setWs d.workspaces tgt tw'}

def copyTabsBetweenWorkspaces (src tgt : String) (ids : List String) : M Bool := do
  beginTransaction
  tryCatch
    (do
      let d ← getWorkspaces
      match lookupWs d.workspaces src, lookupWs d.workspaces tgt with
      | some _, some _ => do
        let d1 ← ids.foldlM (fun dd tid => copyOne dd src tgt tid) d
        let ts ← getTime
        let d2 := setMtimeDoc d1 tgt ts
        saveWorkspaces d2
        commitTransaction
        pure true
      | _, _ => throw (.thrown "Source or target workspace not found."))
    (fun e => do rollbackTransaction; throw e)

end Offline

/-! ## JSON serialization of layouts (for the round-trip property) -/

mutual

/-- A parsed JSON value (the fragment the layout serialization uses). -/
inductive Json where
  | str (s : String) : Json
  | arr (a : JArr) : Json
  | obj (o : JObj) : Json

inductive JArr where
  | nil : JArr
  | cons (j : Json) (rest : JArr) : JArr

inductive JObj where
  | nil : JObj
  | cons (k : String) (v : Json) (rest : JObj) : JObj

end

def typeName : NType → String
  | .split => "split"
  | .tabs => "tabs"
  | .leaf => "leaf"

def typeOfName (s : String) : Option NType :=
  if s = "split" then some .split
  else if s = "tabs" then some .tabs
  else if s = "leaf" then some .leaf
  else none

/-- An optional string field: `JSON.stringify` omits `undefined`. -/
def optField (k : String) : Option String → JObj → JObj
  | some v, rest => .cons k (.str v) rest
  | none, rest => rest

/-- Serialize a leaf `state` record. -/
def encodeLeafState (ls : LeafState) : Json :=
  .obj (.cons "type" (.str ls.vtype)
    (.cons "state" (.obj (optField "file" ls.file .nil))
      (optField "icon" ls.icon (optField "title" ls.title .nil))))

def stateField : Option LeafState → JObj → JObj
  | some ls, rest => .cons "state" (encodeLeafState ls) rest
  | none, rest => rest

mutual

/-- `JSON.stringify` of a layout node (undefined fields omitted). -/
def encodeNode : LC → Json
  | .mk i t ch st d =>
    .obj (.cons "id" (.str i)
      (.cons "type" (.str (typeName t))
        (childrenField ch (stateField st (optField "direction" d .nil)))))

def childrenField : Kids → JObj → JObj
  | .none, rest => rest
  | .some f, rest => .cons "children" (.arr (encodeForest f)) rest

def encodeForest : Forest → JArr
  | .nil => .nil
  | .cons c f => .cons (encodeNode c) (encodeForest f)

end

/-- Partially decoded fields of a node object. -/
structure RawNode where
  rid : Option String := none
  rtype : Option String := none
  rchildren : Option Forest := none
  rstate : Option LeafState := none
  rdirection : Option String := none

/-- Partially decoded fields of a leaf `state` object. -/
structure RawLS where
  ltype : Option String := none
  lfile : Option String := none
  licon : Option String := none
  ltitle : Option String := none

def decodeFileObj : JObj → Option (Option String)
  | .nil => some none
  | .cons k v rest =>
    match decodeFileObj rest with
    | none => none
    | some acc =>
      if k = "file" then
        match v with
        | .str s => some (some s)
        | _ => none
      else some acc

def decodeLSFields : JObj → Option RawLS
  | .nil => some {}
  | .cons k v rest =>
    match decodeLSFields rest with
    | none => none
    | some acc =>
      if k = "type" then
        match v with
        | .str s => some {acc with ltype := some s}
        | _ => none
      else if k = "state" then
        match v with
        | .obj o =>
          match decodeFileObj o with
          | some f => some {acc with lfile := f}
          | none => none
        | _ => none
      else if k = "icon" then
        match v with
        | .str s => some {acc with licon := some s}
        | _ => none
      else if k = "title" then
        match v with
        | .str s => some {acc with ltitle := some s}
        | _ => none
      else some acc

def decodeLeafState : Json → Option LeafState
  | .obj o =>
    match decodeLSFields o with
    | some r =>
      match r.ltype with
      | some t => some ⟨t, r.lfile, r.licon, r.ltitle⟩
      | none => none
    | none => none
  | _ => none

mutual

/-- Reading a serialized node back (`JSON.parse` followed by use of the
parsed object as a `LayoutComponent`). -/
def decodeNode : Json → Option LC
  | .obj o =>
    match decodeFields o with
    | some r =>
      match r.rid, r.rtype with
      | some i, some tn =>
        match typeOfName tn with
        | some t =>
          some (.mk i t
            (match r.rchildren with | some f => .some f | none => .none)
            r.rstate r.rdirection)
        | none => none
      | _, _ => none
    | none => none
  | _ => none

/-- Reading a `children` field value: it must be an array of nodes. -/
def decodeChildrenVal : Json → Option Forest
  | .arr a => decodeForest a
  | _ => none

def decodeFields : JObj → Option RawNode
  | .nil => some {}
  | .cons k v rest =>
    match decodeFields rest with
    | none => none
    | some acc =>
      if k = "id" then
        match v with
        | .str s => some {acc with rid := some s}
        | _ => none
      else if k = "type" then
        match v with
        | .str s => some {acc with rtype := some s}
        | _ => none
      else if k = "children" then
        match decodeChildrenVal v with
        | some f => some {acc with rchildren := some f}
        | none => none
      else if k = "state" then
        match decodeLeafState v with
        | some ls => some {acc with rstate := some ls}
        | none => none
      else if k = "direction" then
        match v with
        | .str s => some {acc with rdirection := some s}
        | _ => none
      else some acc

def decodeForest : JArr → Option Forest
  | .nil => some .nil
  | .cons j rest =>
    match decodeNode j with
    | some c =>
      match decodeForest rest with
      | some f => some (.cons c f)
      | none => none
    | none => none

end

/-! ## The specification-side flattening (for the refinement claim) -/

mutual

/-- Modelled from the spec: the leaf nodes of a tree, depth-first and
left to right. -/
def leavesOfNode : LC → List LC
  | .mk i t ch st d => if t = .leaf then [.mk i t ch st d] else leavesOfKids ch

def leavesOfKids : Kids → List LC
  | .none => []
  | .some f => leavesOfForest f

def leavesOfForest : Forest → List LC
  | .nil => []
  | .cons c f => leavesOfNode c ++ leavesOfForest f

end

/-- Modelled from the spec: the tab record of a leaf, when its
`state.state.file` is set; `title` defaults to the last path segment of
`filePath` when no explicit title is present. -/
def specTabOf (l : LC) : Option TabInfo :=
  match tabFile l.state with
  | some f => some ⟨l.id, f, tabTitle l.state f⟩
  | none => none

/-- Modelled from the spec: `flattenTabs(layout)` as §3 defines the
derived `Tab` records. -/
def specFlatten (w : WL) : List TabInfo :=
  (leavesOfNode w.main).filterMap specTabOf

mutual

/-- Well-formedness per the data model (§3): `leaf` nodes carry no
children array (only `split` and `tabs` nodes do). -/
def wfNode : LC → Bool
  | .mk _ t ch _ _ =>
    (match t, ch with
     | .leaf, .some _ => false
     | _, _ => true) && wfKids ch

def wfKids : Kids → Bool
  | .none => true
  | .some f => wfForest f

def wfForest : Forest → Bool
  | .nil => true
  | .cons c f => wfNode c && wfForest f

end

/-! ## Round-trip and flattening lemmas -/

theorem decodeFileObj_optField (f : Option String) :
    decodeFileObj (optField "file" f .nil) = some f := by
  cases f <;> simp [decodeFileObj, optField]

theorem decodeLeafState_encode (ls : LeafState) :
    decodeLeafState (encodeLeafState ls) = some ls := by
  rcases ls with ⟨t, f, i, ttl⟩
  cases f <;> cases i <;> cases ttl <;>
    simp [encodeLeafState, decodeLeafState, decodeLSFields, decodeFileObj, optField]

theorem typeOfName_typeName (t : NType) : typeOfName (typeName t) = some t := by
  cases t <;> simp [typeOfName, typeName]

mutual

theorem decodeNode_encodeNode : ∀ n : LC, decodeNode (encodeNode n) = some n
  | .mk i t .none st d => by
    cases st <;> cases d <;>
      simp [encodeNode, decodeNode, decodeFields, childrenField, stateField, optField,
        decodeLeafState_encode, typeOfName_typeName]
  | .mk i t (.some f) st d => by
    have hf := decodeForest_encodeForest f
    cases st <;> cases d <;>
      simp [encodeNode, decodeNode, decodeFields, decodeChildrenVal, childrenField,
        stateField, optField, decodeLeafState_encode, typeOfName_typeName, hf]

theorem decodeForest_encodeForest : ∀ f : Forest, decodeForest (encodeForest f) = some f
  | .nil => by simp [encodeForest, decodeForest]
  | .cons c rest => by
    have h1 := decodeNode_encodeNode c
    have h2 := decodeForest_encodeForest rest
    simp [encodeForest, decodeForest, h1, h2]

end

mutual

theorem extract_spec_node : ∀ n : LC, wfNode n = true →
    extractFromNode n = (leavesOfNode n).filterMap specTabOf
  | .mk i t .none st d, h => by
    cases htf : tabFile st <;> cases t <;>
      simp [extractFromNode, leavesOfNode, leavesOfKids, specTabOf, LC.state, LC.id, htf]
  | .mk i t (.some f) st d, h => by
    have hf := extract_spec_forest f (by
      cases t <;> simp [wfNode, wfKids] at h <;> assumption)
    have ht : t ≠ NType.leaf := by
      intro he
      subst he
      simp [wfNode] at h
    cases htf : tabFile st <;> cases t <;>
      simp_all [extractFromNode, leavesOfNode, leavesOfKids, htf]

theorem extract_spec_forest : ∀ f : Forest, wfForest f = true →
    extractFromForest f = (leavesOfForest f).filterMap specTabOf
  | .nil, _ => by simp [extractFromForest, leavesOfForest]
  | .cons c rest, h => by
    have hc := extract_spec_node c (by simp [wfForest] at h; exact h.1)
    have hr := extract_spec_forest rest (by simp [wfForest] at h; exact h.2)
    simp [extractFromForest, leavesOfForest, List.filterMap_append, hc, hr]

end

/-- A small well-formed sample layout: a split holding one tabs group
with two file leaves. -/
def sampleLeaf (i f : String) : LC :=
  .mk i .leaf .none (some ⟨"markdown", some f, none, none⟩) none

def sampleLayout : WL :=
  { main := .mk "m" .split
      (.some (.cons (.mk "tg" .tabs
        (.some (.cons (sampleLeaf "l1" "notes/a.md") (.cons (sampleLeaf "l2" "b.md") .nil)))
        none none) .nil))
      none (some "horizontal")
    active := "l1", mtime := "t0" }

/-- C9: for every layout, `flattenTabs` is deterministic and stable
under a serialization round-trip (serialize, deserialize, flatten again
yields the identical sequence); it collects exactly the leaf nodes whose
`state.state.file` is set, in depth-first left-to-right pre-order, and
each tab's title defaults to the last path segment of its `filePath`
when no explicit title is present (the latter stated as equality with
the specification-side flattening, over data-model-well-formed trees
whose leaves carry no children). -/
theorem C9_flatten_stable_and_spec (w : WL) (hwf : wfNode w.main = true) :
    decodeNode (encodeNode w.main) = some w.main ∧
    (∀ n', decodeNode (encodeNode w.main) = some n' →
      extractFromNode n' = extractTabsFromWorkspace w) ∧
    extractTabsFromWorkspace w = specFlatten w := by
  refine ⟨decodeNode_encodeNode w.main, ?_, ?_⟩
  · intro n' h
    rw [decodeNode_encodeNode w.main] at h
    cases h
    rfl
  · simpa [extractTabsFromWorkspace, specFlatten] using extract_spec_node w.main hwf

/-- Witness for C9 at a concrete layout. -/
theorem C9_flatten_stable_and_spec_witness :
    wfNode sampleLayout.main = true ∧
    (decodeNode (encodeNode sampleLayout.main) = some sampleLayout.main ∧
    (∀ n', decodeNode (encodeNode sampleLayout.main) = some n' →
      extractFromNode n' = extractTabsFromWorkspace sampleLayout) ∧
    extractTabsFromWorkspace sampleLayout = specFlatten sampleLayout) :=
  ⟨by decide, C9_flatten_stable_and_spec sampleLayout (by decide)⟩

/-! ## Simultaneous induction over the node/forest family -/

theorem lc_forest_ind (Pn : LC → Prop) (Pf : Forest → Prop)
    (hn : ∀ i t ch st d, (∀ f, ch = Kids.some f → Pf f) → Pn (.mk i t ch st d))
    (hnil : Pf .nil)
    (hcons : ∀ c rest, Pn c → Pf rest → Pf (.cons c rest)) :
    (∀ n, Pn n) ∧ (∀ f, Pf f) := by
  have key : ∀ k : Nat,
      (∀ n : LC, sizeOf n ≤ k → Pn n) ∧ (∀ f : Forest, sizeOf f ≤ k → Pf f) := by
    intro k
    induction k with
    | zero =>
      constructor
      · intro n h0
        rcases n with ⟨i, t, ch, st, d⟩
        simp only [LC.mk.sizeOf_spec] at h0
        omega
      · intro f h0
        cases f with
        | nil => exact hnil
        | cons c rest =>
          simp only [Forest.cons.sizeOf_spec] at h0
          omega
    | succ k ih =>
      constructor
      · intro n hsz
        rcases n with ⟨i, t, ch, st, d⟩
        apply hn
        intro f hch
        subst hch
        apply ih.2
        simp only [LC.mk.sizeOf_spec, Kids.some.sizeOf_spec] at hsz
        omega
      · intro f hsz
        cases f with
        | nil => exact hnil
        | cons c rest =>
          simp only [Forest.cons.sizeOf_spec] at hsz
          exact hcons c rest (ih.1 c (by omega)) (ih.2 rest (by omega))
  exact ⟨fun n => (key (sizeOf n)).1 n le_rfl, fun f => (key (sizeOf f)).2 f le_rfl⟩

/-! ## Counting lemmas for insertion and removal -/

def countPForest (P : TabInfo → Bool) (f : Forest) : Nat :=
  ((extractFromForest f).filter P).length

theorem extractFromForest_append (f : Forest) (x : LC) :
    extractFromForest (appendForest f x) = extractFromForest f ++ extractFromNode x := by
  have H := lc_forest_ind (fun _ => True)
    (fun f => extractFromForest (appendForest f x) = extractFromForest f ++ extractFromNode x)
    (fun _ _ _ _ _ _ => trivial)
    (by simp [appendForest, extractFromForest])
    (fun c rest _ ih => by simp [appendForest, extractFromForest, ih])
  exact H.2 f

theorem lookupWs_setWs_self (m : List (String × WL)) (n : String) (w : WL) :
    lookupWs (setWs m n w) n = some w := by
  induction m with
  | nil => simp [setWs, lookupWs]
  | cons hd rest ih =>
    rcases hd with ⟨k, w0⟩
    by_cases h : k = n <;> simp [setWs, lookupWs, h, ih]

theorem lookupWs_setWs_ne (m : List (String × WL)) (n n' : String) (w : WL)
    (h : n ≠ n') : lookupWs (setWs m n w) n' = lookupWs m n' := by
  induction m with
  | nil => simp [setWs, lookupWs, h]
  | cons hd rest ih =>
    rcases hd with ⟨k, w0⟩
    by_cases hk : k = n
    · subst hk
      simp [setWs, lookupWs, h]
    · simp [setWs, lookupWs, hk, ih]

theorem insert_iff_find (tab : LC) (n : LC) :
    (insertNode tab n).2 = (findFirstTabGroup n).isSome := by
  have H := lc_forest_ind
    (fun n => (insertNode tab n).2 = (findFirstTabGroup n).isSome)
    (fun f => (insertForest tab f).2 = (findFirstInForest f).isSome)
    (fun i t ch st d ih => by
      cases t with
      | tabs => simp [insertNode, findFirstTabGroup]
      | split =>
        cases ch with
        | none => simp [insertNode, findFirstTabGroup]
        | some f =>
          have hf : (insertForest tab f).2 = (findFirstInForest f).isSome := ih f rfl
          rcases hrec : insertForest tab f with ⟨f', b⟩
          rw [hrec] at hf
          simpa [insertNode, findFirstTabGroup, hrec] using hf
      | leaf =>
        cases ch with
        | none => simp [insertNode, findFirstTabGroup]
        | some f =>
          have hf : (insertForest tab f).2 = (findFirstInForest f).isSome := ih f rfl
          rcases hrec : insertForest tab f with ⟨f', b⟩
          rw [hrec] at hf
          simpa [insertNode, findFirstTabGroup, hrec] using hf)
    (by simp [insertForest, findFirstInForest])
    (fun c rest ihc ihr => by
      have hc : (insertNode tab c).2 = (findFirstTabGroup c).isSome := ihc
      have hr : (insertForest tab rest).2 = (findFirstInForest rest).isSome := ihr
      rcases hn : insertNode tab c with ⟨c', b⟩
      rw [hn] at hc
      cases b with
      | true =>
        simp at hc
        rcases hff : findFirstTabGroup c with _ | g
        · rw [hff] at hc; simp at hc
        · simp [insertForest, hn, findFirstInForest, hff]
      | false =>
        simp at hc
        rcases hff : findFirstTabGroup c with _ | g
        · rcases hrest : insertForest tab rest with ⟨rest', b'⟩
          rw [hrest] at hr
          simpa [insertForest, hn, hrest, findFirstInForest, hff] using hr
        · rw [hff] at hc; simp at hc)
  exact H.1 n

theorem insertNode_false (tab : LC) (n : LC) :
    (insertNode tab n).2 = false → (insertNode tab n).1 = n := by
  have H := lc_forest_ind
    (fun n => (insertNode tab n).2 = false → (insertNode tab n).1 = n)
    (fun f => (insertForest tab f).2 = false → (insertForest tab f).1 = f)
    (fun i t ch st d ih => by
      intro h
      cases t with
      | tabs => simp [insertNode] at h
      | split =>
        cases ch with
        | none => simp [insertNode]
        | some f =>
          have hf : (insertForest tab f).2 = false → (insertForest tab f).1 = f := ih f rfl
          rcases hrec : insertForest tab f with ⟨f', b⟩
          rw [hrec] at hf
          simp [insertNode, hrec] at h ⊢
          subst h
          simpa using hf
      | leaf =>
        cases ch with
        | none => simp [insertNode]
        | some f =>
          have hf : (insertForest tab f).2 = false → (insertForest tab f).1 = f := ih f rfl
          rcases hrec : insertForest tab f with ⟨f', b⟩
          rw [hrec] at hf
          simp [insertNode, hrec] at h ⊢
          subst h
          simpa using hf)
    (by intro h; simp [insertForest])
    (fun c rest ihc ihr => by
      intro h
      have hc : (insertNode tab c).2 = false → (insertNode tab c).1 = c := ihc
      have hr : (insertForest tab rest).2 = false → (insertForest tab rest).1 = rest := ihr
      rcases hn : insertNode tab c with ⟨c', b⟩
      rw [hn] at hc
      cases b with
      | true => simp [insertForest, hn] at h
      | false =>
        rcases hrest : insertForest tab rest with ⟨rest', b'⟩
        rw [hrest] at hr
        simp [insertForest, hn, hrest] at h ⊢
        subst h
        simpa using hr)
  exact H.1 n

def extractFromKids : Kids → List TabInfo
  | .some cs => extractFromForest cs
  | .none => []

theorem extract_split (i : String) (ch : Kids) (st : Option LeafState) (d : Option String) :
    extractFromNode (.mk i NType.split ch st d) = extractFromKids ch := by
  cases ch <;> simp [extractFromNode, extractFromKids]

theorem extract_tabs (i : String) (ch : Kids) (st : Option LeafState) (d : Option String) :
    extractFromNode (.mk i NType.tabs ch st d) = extractFromKids ch := by
  cases ch <;> simp [extractFromNode, extractFromKids]

theorem extract_leaf_file (i : String) (ch : Kids) (st : Option LeafState)
    (d : Option String) (f : String) (h : tabFile st = some f) :
    extractFromNode (.mk i NType.leaf ch st d) = [⟨i, f, tabTitle st f⟩] := by
  cases ch <;> simp [extractFromNode, h]

theorem extract_leaf_nofile (i : String) (ch : Kids) (st : Option LeafState)
    (d : Option String) (h : tabFile st = none) :
    extractFromNode (.mk i NType.leaf ch st d) = extractFromKids ch := by
  cases ch <;> simp [extractFromNode, extractFromKids, h]

theorem insertNode_count (P : TabInfo → Bool) (tab : LC) (n : LC) :
    wfNode n = true → (insertNode tab n).2 = true →
    countTabsP P (insertNode tab n).1 = countTabsP P n + countTabsP P tab := by
  have H := lc_forest_ind
    (fun n => wfNode n = true → (insertNode tab n).2 = true →
      countTabsP P (insertNode tab n).1 = countTabsP P n + countTabsP P tab)
    (fun f => wfForest f = true → (insertForest tab f).2 = true →
      countPForest P (insertForest tab f).1 = countPForest P f + countTabsP P tab)
    (fun i t ch st d ih => by
      intro hwf hb
      cases t with
      | tabs =>
        cases ch with
        | none =>
          simp [insertNode, countTabsP, countPForest, extractFromNode, extractFromForest,
            appendForest]
        | some f =>
          simp [insertNode, countTabsP, countPForest, extractFromNode,
            extractFromForest_append]
      | split =>
        cases ch with
        | none => simp [insertNode] at hb
        | some f =>
          have hwff : wfForest f = true := by simpa [wfNode, wfKids] using hwf
          have hf : wfForest f = true → (insertForest tab f).2 = true →
              countPForest P (insertForest tab f).1 = countPForest P f + countTabsP P tab :=
            ih f rfl
          rcases hrec : insertForest tab f with ⟨f', b⟩
          rw [hrec] at hf
          simp [insertNode, hrec] at hb
          subst hb
          have hcount := hf hwff rfl
          simp only [countPForest] at hcount
          simp [insertNode, hrec, countTabsP, extract_split, extractFromKids, hcount]
      | leaf =>
        cases ch with
        | none => simp [insertNode] at hb
        | some f => simp [wfNode] at hwf)
    (by intro _ hb; simp [insertForest] at hb)
    (fun c rest ihc ihr => by
      intro hwf hb
      have hwfc : wfNode c = true := by simp [wfForest] at hwf; exact hwf.1
      have hwfr : wfForest rest = true := by simp [wfForest] at hwf; exact hwf.2
      have hc : wfNode c = true → (insertNode tab c).2 = true →
          countTabsP P (insertNode tab c).1 = countTabsP P c + countTabsP P tab := ihc
      have hr : wfForest rest = true → (insertForest tab rest).2 = true →
          countPForest P (insertForest tab rest).1 = countPForest P rest + countTabsP P tab :=
        ihr
      rcases hn : insertNode tab c with ⟨c', b⟩
      rw [hn] at hc
      cases b with
      | true =>
        have hcount := hc hwfc rfl
        simp only [countTabsP] at hcount
        simp [insertForest, hn, countPForest, extractFromForest, countTabsP,
          List.filter_append, hcount]
        omega
      | false =>
        rcases hrest : insertForest tab rest with ⟨rest', b'⟩
        rw [hrest] at hr
        simp [insertForest, hn, hrest] at hb
        subst hb
        have hcount := hr hwfr rfl
        simp only [countPForest] at hcount
        simp [insertForest, hn, hrest, countPForest, extractFromForest, countTabsP,
          List.filter_append, hcount]
        omega)
  exact fun hwf hb => H.1 n hwf hb

theorem addTabToMain_count (P : TabInfo → Bool) (tab : LC) (tsId : String) (main : LC)
    (hwf : wfNode main = true) :
    countTabsP P (addTabToMain tab tsId main) = countTabsP P main + countTabsP P tab := by
  rcases hff : findFirstTabGroup main with _ | g
  · rcases main with ⟨i, t, ch, st, d⟩
    by_cases hcond : t ≠ NType.split ∨ ch = Kids.none
    · simp only [addTabToMain, hff]
      rw [if_pos hcond]
      simp only [countTabsP, extract_split, extractFromKids, extractFromForest,
        extract_tabs, List.append_nil]
      simp [countTabsP, List.filter_append]
    · push_neg at hcond
      obtain ⟨ht, hch⟩ := hcond
      subst ht
      rcases ch with _ | f
      · exact absurd rfl hch
      · simp only [addTabToMain, hff]
        rw [if_neg (by simp)]
        simp only [countTabsP, extract_split, extractFromKids, extractFromForest_append,
          extract_tabs, extractFromForest, List.append_nil]
        simp [List.filter_append]
  · have hins : (insertNode tab main).2 = true := by
      rw [insert_iff_find, hff]
      rfl
    have h := insertNode_count P tab main hwf hins
    simpa [addTabToMain, hff] using h

theorem removeFromNode_false (tid : String) (n : LC) :
    (removeFromNode tid n).2 = false → (removeFromNode tid n).1 = n := by
  rcases n with ⟨i, t, ch, st, d⟩
  cases ch with
  | none => intro _; simp [removeFromNode]
  | some f =>
    intro h
    rcases hr : remForest tid f with _ | f' | _
    · simp [removeFromNode, hr] at h
    · simp [removeFromNode, hr] at h
    · simp [removeFromNode, hr]

theorem countIdNode_pos (tid : String) (c : LC) (h : c.id = tid) :
    1 ≤ countIdNode tid c := by
  rcases c with ⟨i, t, ch, st, d⟩
  simp [LC.id] at h
  simp [countIdNode, h]

theorem filterForest_count_le (tid : String) (f : Forest) :
    countIdForest tid (filterForest tid f) ≤ countIdForest tid f := by
  have H := lc_forest_ind (fun _ => True)
    (fun f => countIdForest tid (filterForest tid f) ≤ countIdForest tid f)
    (fun _ _ _ _ _ _ => trivial)
    (by simp [filterForest, countIdForest])
    (fun c rest _ ihr => by
      have hr : countIdForest tid (filterForest tid rest) ≤ countIdForest tid rest := ihr
      by_cases h : c.id = tid
      · simp [filterForest, countIdForest, h]
        omega
      · simp [filterForest, countIdForest, h]
        omega)
  exact H.2 f

theorem remove_count_lt (tid : String) (n : LC) :
    (removeFromNode tid n).2 = true →
    countIdNode tid (removeFromNode tid n).1 < countIdNode tid n := by
  have H := lc_forest_ind
    (fun n => (removeFromNode tid n).2 = true →
      countIdNode tid (removeFromNode tid n).1 < countIdNode tid n)
    (fun f =>
      (remForest tid f = RemRes.direct →
        countIdForest tid (filterForest tid f) < countIdForest tid f) ∧
      (∀ f', remForest tid f = RemRes.inner f' →
        countIdForest tid f' < countIdForest tid f))
    (fun i t ch st d ih => by
      intro hb
      cases ch with
      | none => simp [removeFromNode] at hb
      | some f =>
        have hf : (remForest tid f = RemRes.direct →
            countIdForest tid (filterForest tid f) < countIdForest tid f) ∧
            (∀ f', remForest tid f = RemRes.inner f' →
              countIdForest tid f' < countIdForest tid f) := ih f rfl
        rcases hr : remForest tid f with _ | f' | _
        · have := hf.1 hr
          simp [removeFromNode, hr, countIdNode, countIdKids]
          omega
        · have := hf.2 f' hr
          simp [removeFromNode, hr, countIdNode, countIdKids]
          omega
        · simp [removeFromNode, hr] at hb)
    (by
      constructor
      · intro h; simp [remForest] at h
      · intro f' h; simp [remForest] at h)
    (fun c rest ihc ihr => by
      have hc : (removeFromNode tid c).2 = true →
          countIdNode tid (removeFromNode tid c).1 < countIdNode tid c := ihc
      have hr : (remForest tid rest = RemRes.direct →
          countIdForest tid (filterForest tid rest) < countIdForest tid rest) ∧
          (∀ f', remForest tid rest = RemRes.inner f' →
            countIdForest tid f' < countIdForest tid rest) := ihr
      by_cases hdm : c.id = tid ∧ c.ntype = NType.leaf
      · constructor
        · intro _
          have hpos := countIdNode_pos tid c hdm.1
          have hle := filterForest_count_le tid rest
          simp [filterForest, countIdForest, hdm.1]
          omega
        · intro f' h
          simp [remForest, hdm] at h
      · constructor
        · intro h
          simp only [remForest, if_neg hdm] at h
          rcases hrem : removeFromNode tid c with ⟨c', b⟩
          rw [hrem] at h
          cases b with
          | true => simp at h
          | false =>
            rcases hrr : remForest tid rest with _ | f'' | _
            · rw [hrr] at h
              have hlt := hr.1 hrr
              have hle : countIdNode tid c ≥ 0 := Nat.zero_le _
              by_cases hcid : c.id = tid
              · simp [filterForest, countIdForest, hcid]
                omega
              · simp [filterForest, countIdForest, hcid]
                omega
            · rw [hrr] at h; simp at h
            · rw [hrr] at h; simp at h
        · intro f' h
          simp only [remForest, if_neg hdm] at h
          rcases hrem : removeFromNode tid c with ⟨c', b⟩
          rw [hrem] at h
          cases b with
          | true =>
            simp at h
            have hlt := hc (by rw [hrem])
            rw [hrem] at hlt
            have hlt' : countIdNode tid c' < countIdNode tid c := hlt
            subst h
            simp [countIdForest]
            omega
          | false =>
            rcases hrr : remForest tid rest with _ | f'' | _
            · rw [hrr] at h; simp at h
            · rw [hrr] at h
              simp at h
              have hlt := hr.2 f'' hrr
              subst h
              simp [countIdForest]
              omega
            · rw [hrr] at h; simp at h)
  exact H.1 n

theorem countTabs_le_countId (tid : String) (n : LC) :
    countTabsP (fun r => r.id = tid) n ≤ countIdNode tid n := by
  have H := lc_forest_ind
    (fun n => countTabsP (fun r => r.id = tid) n ≤ countIdNode tid n)
    (fun f => countPForest (fun r => r.id = tid) f ≤ countIdForest tid f)
    (fun i t ch st d ih => by
      cases t with
      | leaf =>
        cases ch with
        | none =>
          rcases htf : tabFile st with _ | f
          · simp [countTabsP, extract_leaf_nofile _ _ _ _ htf, extractFromKids, countIdNode,
              countIdKids]
          · by_cases hid : i = tid <;>
              simp [countTabsP, extract_leaf_file _ _ _ _ _ htf, countIdNode, countIdKids, hid]
        | some f =>
          have hf : countPForest (fun r => r.id = tid) f ≤ countIdForest tid f := ih f rfl
          rcases htf : tabFile st with _ | g
          · simp only [countTabsP, extract_leaf_nofile _ _ _ _ htf, extractFromKids]
            simp only [countPForest] at hf
            simp [countIdNode, countIdKids]
            omega
          · by_cases hid : i = tid <;>
              simp [countTabsP, extract_leaf_file _ _ _ _ _ htf, countIdNode, countIdKids, hid]
      | split =>
        cases ch with
        | none => simp [countTabsP, extract_split, extractFromKids, countIdNode, countIdKids]
        | some f =>
          have hf : countPForest (fun r => r.id = tid) f ≤ countIdForest tid f := ih f rfl
          simp only [countTabsP, extract_split, extractFromKids]
          simp only [countPForest] at hf
          simp [countIdNode, countIdKids]
          omega
      | tabs =>
        cases ch with
        | none => simp [countTabsP, extract_tabs, extractFromKids, countIdNode, countIdKids]
        | some f =>
          have hf : countPForest (fun r => r.id = tid) f ≤ countIdForest tid f := ih f rfl
          simp only [countTabsP, extract_tabs, extractFromKids]
          simp only [countPForest] at hf
          simp [countIdNode, countIdKids]
          omega)
    (by simp [countPForest, extractFromForest, countIdForest])
    (fun c rest ihc ihr => by
      have hc : countTabsP (fun r => r.id = tid) c ≤ countIdNode tid c := ihc
      have hr : countPForest (fun r => r.id = tid) rest ≤ countIdForest tid rest := ihr
      simp only [countPForest, extractFromForest, countIdForest, List.filter_append,
        List.length_append] at hc hr ⊢
      simp only [countTabsP] at hc
      omega)
  exact H.1 n

theorem findInNode_sound (tid : String) (n : LC) (tb pr : LC) :
    findInNode tid n = some (tb, pr) → tb.id = tid ∧ tb.ntype = NType.leaf := by
  have H := lc_forest_ind
    (fun n => ∀ tb pr, findInNode tid n = some (tb, pr) →
      tb.id = tid ∧ tb.ntype = NType.leaf)
    (fun f => ∀ parent tb pr, findInForest tid parent f = some (tb, pr) →
      tb.id = tid ∧ tb.ntype = NType.leaf)
    (fun i t ch st d ih => by
      intro tb pr h
      cases ch with
      | none => simp [findInNode] at h
      | some f =>
        have hf : ∀ parent tb pr, findInForest tid parent f = some (tb, pr) →
            tb.id = tid ∧ tb.ntype = NType.leaf := ih f rfl
        simp only [findInNode] at h
        exact hf _ tb pr h)
    (by intro parent tb pr h; simp [findInForest] at h)
    (fun c rest ihc ihr => by
      intro parent tb pr h
      have hc : ∀ tb pr, findInNode tid c = some (tb, pr) →
          tb.id = tid ∧ tb.ntype = NType.leaf := ihc
      have hr : ∀ parent tb pr, findInForest tid parent rest = some (tb, pr) →
          tb.id = tid ∧ tb.ntype = NType.leaf := ihr
      by_cases hdm : c.id = tid ∧ c.ntype = NType.leaf
      · simp only [findInForest, if_pos hdm] at h
        cases h
        exact hdm
      · simp only [findInForest, if_neg hdm] at h
        rcases hfc : findInNode tid c with _ | r
        · rw [hfc] at h
          exact hr parent tb pr h
        · rcases r with ⟨tb', pr'⟩
          rw [hfc] at h
          cases h
          exact hc _ _ hfc)
  exact H.1 n tb pr

/-- Whether a removal scan hit something. -/
def remHit : RemRes → Bool
  | .nothing => false
  | _ => true

theorem remove_iff_find (tid : String) (n : LC) :
    (removeFromNode tid n).2 = (findInNode tid n).isSome := by
  have H := lc_forest_ind
    (fun n => (removeFromNode tid n).2 = (findInNode tid n).isSome)
    (fun f => ∀ parent, remHit (remForest tid f) = (findInForest tid parent f).isSome)
    (fun i t ch st d ih => by
      cases ch with
      | none => simp [removeFromNode, findInNode]
      | some f =>
        have hf : ∀ parent, remHit (remForest tid f) = (findInForest tid parent f).isSome :=
          ih f rfl
        have hff := hf (.mk i t (Kids.some f) st d)
        rcases hr : remForest tid f with _ | f' | _ <;>
          rw [hr] at hff <;>
          simp [remHit] at hff <;>
          simp [removeFromNode, findInNode, hr]
        · rcases hex : findInForest tid (.mk i t (Kids.some f) st d) f with _ | r
          · rw [hex] at hff; simp at hff
          · simp [hex]
        · rcases hex : findInForest tid (.mk i t (Kids.some f) st d) f with _ | r
          · rw [hex] at hff; simp at hff
          · simp [hex]
        · rcases hex : findInForest tid (.mk i t (Kids.some f) st d) f with _ | r
          · simp [hex]
          · rw [hex] at hff; simp at hff)
    (by intro parent; simp [remForest, findInForest, remHit])
    (fun c rest ihc ihr => by
      intro parent
      have hc : (removeFromNode tid c).2 = (findInNode tid c).isSome := ihc
      have hr : ∀ parent, remHit (remForest tid rest) = (findInForest tid parent rest).isSome :=
        ihr
      by_cases hdm : c.id = tid ∧ c.ntype = NType.leaf
      · simp [remForest, findInForest, hdm, remHit]
      · simp only [remForest, findInForest, if_neg hdm]
        rcases hrem : removeFromNode tid c with ⟨c', b⟩
        rw [hrem] at hc
        cases b with
        | true =>
          simp at hc
          rcases hfc : findInNode tid c with _ | r
          · rw [hfc] at hc; simp at hc
          · simp [remHit, hfc]
        | false =>
          simp at hc
          rcases hfc : findInNode tid c with _ | r
          · rw [hfc] at hc
            have hrr := hr parent
            rcases hrest : remForest tid rest with _ | f'' | _ <;>
              rw [hrest] at hrr <;> simp [remHit] at hrr <;> simp [remHit]
            · rcases hex : findInForest tid parent rest with _ | r2
              · rw [hex] at hrr; simp at hrr
              · simp [hex]
            · rcases hex : findInForest tid parent rest with _ | r2
              · rw [hex] at hrr; simp at hrr
              · simp [hex]
            · rcases hex : findInForest tid parent rest with _ | r2
              · simp [hex]
              · rw [hex] at hrr; simp at hrr
          · rw [hfc] at hc; simp at hc)
  exact H.1 n

/-! ## Run equations for the effect monad -/

theorem runM_bind {α β : Type} (x : M α) (f : α → M β) (s : St) :
    runM (x >>= f) s = match runM x s with
      | (Except.ok a, s') => runM (f a) s'
      | (Except.error e, s') => (Except.error e, s') := by
  rcases h : runM x s with ⟨r, s'⟩
  have h' : x s = (r, s') := h
  cases r <;>
    simp [runM, Bind.bind, ExceptT.bind, ExceptT.bindCont, ExceptT.run, ExceptT.mk,
      StateT.bind, h', Pure.pure, StateT.pure]

theorem runM_tryCatch {α : Type} (x : M α) (h : Err → M α) (s : St) :
    runM (tryCatch x h) s = match runM x s with
      | (Except.ok a, s') => (Except.ok a, s')
      | (Except.error e, s') => runM (h e) s' := by
  rcases hx : runM x s with ⟨r, s'⟩
  have h' : x s = (r, s') := hx
  cases r <;>
    simp [runM, tryCatch, tryCatchThe, MonadExceptOf.tryCatch, ExceptT.tryCatch,
      ExceptT.run, ExceptT.mk, Bind.bind, StateT.bind, h', Pure.pure, StateT.pure]

theorem runM_pure {α : Type} (a : α) (s : St) : runM (pure a) s = (Except.ok a, s) := rfl

theorem runM_throw {α : Type} (e : Err) (s : St) :
    runM (throw e : M α) s = (Except.error e, s) := rfl

theorem runM_get (s : St) : runM (get : M St) s = (Except.ok s, s) := rfl

theorem runM_set (s' s : St) : runM (set s' : M Unit) s = (Except.ok (), s') := rfl

theorem runM_modify (f : St → St) (s : St) :
    runM (modify f : M Unit) s = (Except.ok (), f s) := rfl

theorem runM_map {α β : Type} (g : α → β) (x : M α) (s : St) :
    runM (g <$> x) s = match runM x s with
      | (Except.ok a, s') => (Except.ok (g a), s')
      | (Except.error e, s') => (Except.error e, s') := by
  rcases h : runM x s with ⟨r, s'⟩
  have h' : x s = (r, s') := h
  cases r <;>
    simp [runM, Functor.map, ExceptT.map, ExceptT.run, ExceptT.mk, Bind.bind,
      StateT.bind, h', Pure.pure, StateT.pure]

theorem runM_tickFS (op : String) (s : St) :
    runM (tickFS op) s =
      (if s.oracle s.idx then (Except.ok (), {s with idx := s.idx + 1})
       else (Except.error (.io op), {s with idx := s.idx + 1})) := by
  simp only [tickFS, runM_bind, runM_get, runM_set]
  split <;> simp_all [runM_pure, runM_throw]

theorem runM_fsRead (p : FPath) (s : St) (hok : s.oracle s.idx = true) :
    runM (fsRead p) s = (match lookupFs s.files p with
      | some b => (Except.ok b, {s with idx := s.idx + 1})
      | none => (Except.error (.io "ENOENT"), {s with idx := s.idx + 1})) := by
  simp only [fsRead, runM_bind, runM_tickFS, hok, if_true, runM_get]
  rcases lookupFs s.files p <;> simp [runM_pure, runM_throw]

theorem runM_fsRead_fault (p : FPath) (s : St) (hf : s.oracle s.idx = false) :
    runM (fsRead p) s = (Except.error (.io "read"), {s with idx := s.idx + 1}) := by
  simp [fsRead, runM_bind, runM_tickFS, hf]

theorem runM_fsWrite (p : FPath) (b : Bytes) (s : St) (hok : s.oracle s.idx = true) :
    runM (fsWrite p b) s
      = (Except.ok (), {s with idx := s.idx + 1, files := setFs s.files p b}) := by
  simp [fsWrite, runM_bind, runM_tickFS, hok, runM_modify]

theorem runM_fsWrite_fault (p : FPath) (b : Bytes) (s : St) (hf : s.oracle s.idx = false) :
    runM (fsWrite p b) s = (Except.error (.io "write"), {s with idx := s.idx + 1}) := by
  simp [fsWrite, runM_bind, runM_tickFS, hf]

theorem runM_fsRemove (p : FPath) (s : St) (hok : s.oracle s.idx = true) :
    runM (fsRemove p) s
      = (Except.ok (), {s with idx := s.idx + 1, files := delFs s.files p}) := by
  simp [fsRemove, runM_bind, runM_tickFS, hok, runM_modify]

theorem runM_fsRemove_fault (p : FPath) (s : St) (hf : s.oracle s.idx = false) :
    runM (fsRemove p) s = (Except.error (.io "remove"), {s with idx := s.idx + 1}) := by
  simp [fsRemove, runM_bind, runM_tickFS, hf]

theorem runM_fsRename (a b : FPath) (s : St) (hok : s.oracle s.idx = true) :
    runM (fsRename a b) s = (match lookupFs s.files a with
      | some c =>
        (Except.ok (), {s with idx := s.idx + 1, files := setFs (delFs s.files a) b c})
      | none => (Except.error (.io "ENOENT"), {s with idx := s.idx + 1})) := by
  simp only [fsRename, runM_bind, runM_tickFS, hok, if_true, runM_get]
  rcases lookupFs s.files a <;> simp [runM_pure, runM_throw, runM_set]

theorem runM_fsRename_fault (a b : FPath) (s : St) (hf : s.oracle s.idx = false) :
    runM (fsRename a b) s = (Except.error (.io "rename"), {s with idx := s.idx + 1}) := by
  simp [fsRename, runM_bind, runM_tickFS, hf]

theorem runM_fsExists (p : FPath) (s : St) (hok : s.oracle s.idx = true) :
    runM (fsExists p) s
      = (Except.ok ((lookupFs s.files p).isSome || s.dirs.contains p),
          {s with idx := s.idx + 1}) := by
  simp [fsExists, runM_bind, runM_tickFS, hok, runM_get, runM_pure, runM_map]

theorem runM_fsExists_fault (p : FPath) (s : St) (hf : s.oracle s.idx = false) :
    runM (fsExists p) s = (Except.error (.io "exists"), {s with idx := s.idx + 1}) := by
  simp [fsExists, runM_bind, runM_tickFS, hf]

theorem runM_fsMkdir (p : FPath) (s : St) (hok : s.oracle s.idx = true) :
    runM (fsMkdir p) s
      = (Except.ok (), {s with idx := s.idx + 1, dirs := p :: s.dirs}) := by
  simp [fsMkdir, runM_bind, runM_tickFS, hok, runM_modify]

theorem runM_fsMkdir_fault (p : FPath) (s : St) (hf : s.oracle s.idx = false) :
    runM (fsMkdir p) s = (Except.error (.io "mkdir"), {s with idx := s.idx + 1}) := by
  simp [fsMkdir, runM_bind, runM_tickFS, hf]

theorem runM_fsList (d : FPath) (s : St) (hok : s.oracle s.idx = true) :
    runM (fsList d) s
      = (Except.ok ((s.files.map (·.1)).filter inBackupDir), {s with idx := s.idx + 1}) := by
  simp [fsList, runM_bind, runM_tickFS, hok, runM_get, runM_pure, runM_map]

theorem runM_fsList_fault (d : FPath) (s : St) (hf : s.oracle s.idx = false) :
    runM (fsList d) s = (Except.error (.io "list"), {s with idx := s.idx + 1}) := by
  simp [fsList, runM_bind, runM_tickFS, hf]

theorem runM_getTime (s : St) :
    runM getTime s = (Except.ok (tsStr s.clock), {s with clock := s.clock + 1}) := by
  simp [getTime, runM_bind, runM_get, runM_set, runM_pure, runM_map]

theorem runM_emit (e : Ev) (s : St) :
    runM (emit e) s = (Except.ok (), {s with trace := s.trace ++ [e]}) := by
  simp [emit, runM_modify]

theorem runM_setTx (p : Option PathStr) (s : St) :
    runM (setTx p) s = (Except.ok (), {s with txPath := p}) := by
  simp [setTx, runM_modify]

/-! ## C10: loading never throws; corrupt or absent documents read as empty -/

/-- The default empty document `{workspaces: {}, active: ''}`. -/
def emptyDoc : WorkspacesData := { workspaces := [], active := "" }

/-- Initial state: the persisted document alone. -/
def initSt (d : WorkspacesData) : St := { files := [(.wsJson, .wsDoc d)] }

/-- Initial state with no persisted document at all. -/
def initStEmpty : St := { files := [] }

/-- Initial state whose persisted document does not parse. -/
def initStGarbage (n : Nat) : St := { files := [(.wsJson, .garbage n)] }

theorem runM_getWorkspacesO_never_errors (s : St) :
    ∃ d, (runM Offline.getWorkspaces s).1 = Except.ok d := by
  rw [Offline.getWorkspaces, runM_tryCatch]
  rcases h : runM (do
    let b ← fsRead FPath.wsJson
    match b with
    | .wsDoc d => pure d
    | .garbage _ => throw (.thrown "JSON.parse")) s with ⟨r, s'⟩
  cases r with
  | ok a => exact ⟨a, by simp⟩
  | error e => exact ⟨emptyDoc, by simp [runM_pure, emptyDoc]⟩

theorem runM_getWorkspacesO_missing (s : St) (hok : ∀ n, s.oracle n = true)
    (hmiss : lookupFs s.files .wsJson = none) :
    runM Offline.getWorkspaces s = (Except.ok emptyDoc, {s with idx := s.idx + 1}) := by
  rw [Offline.getWorkspaces, runM_tryCatch, runM_bind, runM_fsRead _ _ (hok _), hmiss]
  simp [runM_pure, emptyDoc]

theorem runM_getWorkspacesO_garbage (s : St) (hok : ∀ n, s.oracle n = true) (g : Nat)
    (hg : lookupFs s.files .wsJson = some (.garbage g)) :
    runM Offline.getWorkspaces s = (Except.ok emptyDoc, {s with idx := s.idx + 1}) := by
  rw [Offline.getWorkspaces, runM_tryCatch, runM_bind, runM_fsRead _ _ (hok _), hg]
  simp [runM_throw, runM_pure, emptyDoc]

theorem runM_getWorkspacesO_doc (s : St) (d : WorkspacesData)
    (hok : ∀ n, s.oracle n = true)
    (hd : lookupFs s.files .wsJson = some (.wsDoc d)) :
    runM Offline.getWorkspaces s = (Except.ok d, {s with idx := s.idx + 1}) := by
  rw [Offline.getWorkspaces, runM_tryCatch, runM_bind, runM_fsRead _ _ (hok _), hd]
  simp [runM_pure]

theorem runM_ensureFolderO (s : St) (hok : ∀ n, s.oracle n = true) :
    runM Offline.ensureFolder s
      = (Except.ok (), {s with idx := s.idx + 1, dirs := FPath.backupDir :: s.dirs}) := by
  simp [Offline.ensureFolder, runM_fsMkdir _ _ (hok _)]

theorem runM_createBackupO_missing (s : St) (hok : ∀ n, s.oracle n = true)
    (hmiss : lookupFs s.files .wsJson = none) :
    runM Offline.createBackup s
      = (Except.ok PathStr.empty,
         {s with idx := s.idx + 2, dirs := FPath.backupDir :: s.dirs,
                 clock := s.clock + 1, trace := s.trace ++ [Ev.warned]}) := by
  rw [Offline.createBackup]
  rw [runM_bind, runM_ensureFolderO s hok]
  simp only []
  rw [runM_bind, runM_getTime]
  simp only []
  rw [runM_tryCatch, runM_bind, runM_fsRead _ _ (by simpa using hok _)]
  simp only [hmiss]
  simp [runM_bind, runM_emit, runM_pure, runM_map]

theorem runM_createBackupO_ok (s : St) (hok : ∀ n, s.oracle n = true) (b : Bytes)
    (hb : lookupFs s.files .wsJson = some b) :
    runM Offline.createBackup s
      = (Except.ok (PathStr.path (.backupFile (tsStr s.clock))),
         {s with idx := s.idx + 3, dirs := FPath.backupDir :: s.dirs,
                 clock := s.clock + 1,
                 files := setFs s.files (.backupFile (tsStr s.clock)) b}) := by
  rw [Offline.createBackup]
  rw [runM_bind, runM_ensureFolderO s hok]
  simp only []
  rw [runM_bind, runM_getTime]
  simp only []
  rw [runM_tryCatch, runM_bind, runM_fsRead _ _ (by simpa using hok _)]
  simp only [hb]
  rw [runM_bind, runM_fsWrite _ _ _ (by simpa using hok _)]
  simp [runM_pure]

theorem runM_writeAtomicallyO_ok (s : St) (hok : ∀ n, s.oracle n = true) (b : Bytes) :
    runM (Offline.writeAtomically b) s
      = (Except.ok (),
         {s with idx := s.idx + 2,
                 files := setFs (delFs (setFs s.files .wsTmp b) .wsTmp) .wsJson b}) := by
  rw [Offline.writeAtomically]
  rw [runM_tryCatch, runM_bind, runM_fsWrite _ _ _ (by simpa using hok _)]
  simp only []
  rw [runM_fsRename _ _ _ (by simpa using hok _)]
  have : lookupFs (setFs s.files FPath.wsTmp b) FPath.wsTmp = some b := by
    clear hok
    induction s.files with
    | nil => simp [setFs, lookupFs]
    | cons hd rest ih =>
      rcases hd with ⟨q, b0⟩
      by_cases hq : q = FPath.wsTmp <;> simp [setFs, lookupFs, hq, ih]
  simp [this]

theorem lookupFs_setFs_self (m : List (FPath × Bytes)) (p : FPath) (b : Bytes) :
    lookupFs (setFs m p b) p = some b := by
  induction m with
  | nil => simp [setFs, lookupFs]
  | cons hd rest ih =>
    rcases hd with ⟨q, b0⟩
    by_cases hq : q = p <;> simp [setFs, lookupFs, hq, ih]

theorem lookupFs_setFs_ne (m : List (FPath × Bytes)) (p p' : FPath) (b : Bytes)
    (h : p ≠ p') : lookupFs (setFs m p b) p' = lookupFs m p' := by
  induction m with
  | nil => simp [setFs, lookupFs, h]
  | cons hd rest ih =>
    rcases hd with ⟨q, b0⟩
    by_cases hq : q = p
    · subst hq
      simp [setFs, lookupFs, h]
    · simp [setFs, lookupFs, hq, ih]

theorem lookupFs_delFs_ne (m : List (FPath × Bytes)) (p p' : FPath)
    (h : p ≠ p') : lookupFs (delFs m p) p' = lookupFs m p' := by
  induction m with
  | nil => simp [delFs, lookupFs]
  | cons hd rest ih =>
    rcases hd with ⟨q, b0⟩
    by_cases hq : q = p
    · subst hq
      simp [delFs, lookupFs, ih, h]
    · simp [delFs, lookupFs, hq, ih]

theorem lookupFs_delFs_self (m : List (FPath × Bytes)) (p : FPath) :
    lookupFs (delFs m p) p = none := by
  induction m with
  | nil => simp [delFs, lookupFs]
  | cons hd rest ih =>
    rcases hd with ⟨q, b0⟩
    by_cases hq : q = p <;> simp [delFs, lookupFs, hq, ih]

theorem runM_beginO_missing (s : St) (hok : ∀ n, s.oracle n = true)
    (hmiss : lookupFs s.files .wsJson = none) :
    runM Offline.beginTransaction s
      = (Except.ok (),
         {s with idx := s.idx + 2, dirs := FPath.backupDir :: s.dirs,
                 clock := s.clock + 1, trace := s.trace ++ [Ev.began, Ev.warned],
                 txPath := some PathStr.empty}) := by
  simp [Offline.beginTransaction, runM_bind, runM_emit, runM_createBackupO_missing,
    runM_setTx, hok, hmiss]

theorem runM_moveO_missing (s : St) (hok : ∀ n, s.oracle n = true)
    (hmiss : lookupFs s.files FPath.wsJson = none) (A B : String) (ids : List String) :
    (runM (Offline.moveTabsBetweenWorkspaces A B ids) s).1
      = Except.error (.thrown "Source or target workspace not found.") := by
  simp [Offline.moveTabsBetweenWorkspaces, runM_bind, runM_tryCatch, runM_beginO_missing,
    runM_getWorkspacesO_missing, Offline.rollbackTransaction, runM_get, runM_emit,
    runM_throw, runM_pure, hok, hmiss, emptyDoc, lookupWs]

theorem runM_copyO_missing (s : St) (hok : ∀ n, s.oracle n = true)
    (hmiss : lookupFs s.files FPath.wsJson = none) (A B : String) (ids : List String) :
    (runM (Offline.copyTabsBetweenWorkspaces A B ids) s).1
      = Except.error (.thrown "Source or target workspace not found.") := by
  simp [Offline.copyTabsBetweenWorkspaces, runM_bind, runM_tryCatch, runM_beginO_missing,
    runM_getWorkspacesO_missing, Offline.rollbackTransaction, runM_get, runM_emit,
    runM_throw, runM_pure, hok, hmiss, emptyDoc, lookupWs]

theorem runM_beginO_garbage (s : St) (hok : ∀ n, s.oracle n = true) (g : Nat)
    (hg : lookupFs s.files FPath.wsJson = some (.garbage g)) :
    runM Offline.beginTransaction s
      = (Except.ok (),
         {s with idx := s.idx + 3, dirs := FPath.backupDir :: s.dirs,
                 clock := s.clock + 1, trace := s.trace ++ [Ev.began],
                 files := setFs s.files (.backupFile (tsStr s.clock)) (.garbage g),
                 txPath := some (PathStr.path (.backupFile (tsStr s.clock)))}) := by
  simp [Offline.beginTransaction, runM_bind, runM_emit, runM_createBackupO_ok,
    runM_setTx, hok, hg]

theorem runM_moveO_garbage (s : St) (hok : ∀ n, s.oracle n = true) (g : Nat)
    (hg : lookupFs s.files FPath.wsJson = some (.garbage g)) (A B : String)
    (ids : List String) :
    (runM (Offline.moveTabsBetweenWorkspaces A B ids) s).1
      = Except.error (.thrown "Source or target workspace not found.") := by
  have hgb : lookupFs (setFs s.files (.backupFile (tsStr s.clock)) (.garbage g))
      FPath.wsJson = some (.garbage g) := by
    rw [lookupFs_setFs_ne _ _ _ _ (by intro h; cases h)]
    exact hg
  have hbk : lookupFs (setFs s.files (.backupFile (tsStr s.clock)) (.garbage g))
      (FPath.backupFile (tsStr s.clock)) = some (.garbage g) :=
    lookupFs_setFs_self _ _ _
  simp [Offline.moveTabsBetweenWorkspaces, runM_bind, runM_tryCatch, runM_beginO_garbage,
    runM_getWorkspacesO_garbage, Offline.rollbackTransaction, runM_get, runM_emit,
    runM_throw, runM_pure, runM_fsRead, runM_setTx, runM_writeAtomicallyO_ok,
    hok, hg, hgb, hbk, emptyDoc, lookupWs]

theorem runM_copyO_garbage (s : St) (hok : ∀ n, s.oracle n = true) (g : Nat)
    (hg : lookupFs s.files FPath.wsJson = some (.garbage g)) (A B : String)
    (ids : List String) :
    (runM (Offline.copyTabsBetweenWorkspaces A B ids) s).1
      = Except.error (.thrown "Source or target workspace not found.") := by
  have hgb : lookupFs (setFs s.files (.backupFile (tsStr s.clock)) (.garbage g))
      FPath.wsJson = some (.garbage g) := by
    rw [lookupFs_setFs_ne _ _ _ _ (by intro h; cases h)]
    exact hg
  have hbk : lookupFs (setFs s.files (.backupFile (tsStr s.clock)) (.garbage g))
      (FPath.backupFile (tsStr s.clock)) = some (.garbage g) :=
    lookupFs_setFs_self _ _ _
  simp [Offline.copyTabsBetweenWorkspaces, runM_bind, runM_tryCatch, runM_beginO_garbage,
    runM_getWorkspacesO_garbage, Offline.rollbackTransaction, runM_get, runM_emit,
    runM_throw, runM_pure, runM_fsRead, runM_setTx, runM_writeAtomicallyO_ok,
    hok, hg, hgb, hbk, emptyDoc, lookupWs]

/-- C10: loading the persisted document never throws at the public
interface — when the workspaces file is missing, unreadable or fails to
parse, `getWorkspaces` returns the empty document
`{workspaces: {}, active: ''}`, and a subsequent move or copy on such a
document fails with the workspace-not-found error, not with a parse or
validation error. -/
theorem C10_load_never_throws_empty_fallback (s : St) (hok : ∀ n, s.oracle n = true)
    (A B : String) (ids : List String)
    (hbad : lookupFs s.files FPath.wsJson = none ∨
      ∃ g, lookupFs s.files FPath.wsJson = some (.garbage g)) :
    (∀ s', ∃ d, (runM Offline.getWorkspaces s').1 = Except.ok d) ∧
    runM Offline.getWorkspaces s = (Except.ok emptyDoc, {s with idx := s.idx + 1}) ∧
    (runM (Offline.moveTabsBetweenWorkspaces A B ids) s).1
      = Except.error (.thrown "Source or target workspace not found.") ∧
    (runM (Offline.copyTabsBetweenWorkspaces A B ids) s).1
      = Except.error (.thrown "Source or target workspace not found.") := by
  refine ⟨fun s' => runM_getWorkspacesO_never_errors s', ?_, ?_, ?_⟩
  · rcases hbad with h | ⟨g, h⟩
    · exact runM_getWorkspacesO_missing s hok h
    · exact runM_getWorkspacesO_garbage s hok g h
  · rcases hbad with h | ⟨g, h⟩
    · exact runM_moveO_missing s hok h A B ids
    · exact runM_moveO_garbage s hok g h A B ids
  · rcases hbad with h | ⟨g, h⟩
    · exact runM_copyO_missing s hok h A B ids
    · exact runM_copyO_garbage s hok g h A B ids

/-- Witness for C10 on a vault with no workspaces file. -/
theorem C10_load_never_throws_empty_fallback_witness :
    (∀ n, initStEmpty.oracle n = true) ∧
    ((∀ s', ∃ d, (runM Offline.getWorkspaces s').1 = Except.ok d) ∧
    runM Offline.getWorkspaces initStEmpty
      = (Except.ok emptyDoc, {initStEmpty with idx := initStEmpty.idx + 1}) ∧
    (runM (Offline.moveTabsBetweenWorkspaces "Source" "Target" ["f1"]) initStEmpty).1
      = Except.error (.thrown "Source or target workspace not found.") ∧
    (runM (Offline.copyTabsBetweenWorkspaces "Source" "Target" ["f1"]) initStEmpty).1
      = Except.error (.thrown "Source or target workspace not found.")) :=
  ⟨fun _ => rfl,
   C10_load_never_throws_empty_fallback initStEmpty (fun _ => rfl) "Source" "Target" ["f1"]
     (Or.inl rfl)⟩

/-! ## C7: a missing document makes backup creation non-fatal -/

/-- C7: for every state in which the persisted document does not yet
exist, `createBackup()` is non-fatal: it returns the `''` sentinel
instead of raising, and the rollback path checks that sentinel — a
transaction begun in that state stores the sentinel and `rollback()` is
a warned no-op that leaves the filesystem untouched. -/
theorem C7_backup_missing_sentinel (s : St) (hok : ∀ n, s.oracle n = true)
    (hmiss : lookupFs s.files FPath.wsJson = none) :
    (runM Offline.createBackup s).1 = Except.ok PathStr.empty ∧
    (runM Offline.beginTransaction s).1 = Except.ok () ∧
    ((runM Offline.beginTransaction s).2).txPath = some PathStr.empty ∧
    runM Offline.rollbackTransaction ((runM Offline.beginTransaction s).2)
      = (Except.ok (),
         {(runM Offline.beginTransaction s).2 with
            trace := ((runM Offline.beginTransaction s).2).trace ++ [Ev.rollbackNoop]}) := by
  rw [runM_createBackupO_missing s hok hmiss, runM_beginO_missing s hok hmiss]
  refine ⟨rfl, rfl, rfl, ?_⟩
  simp [Offline.rollbackTransaction, runM_bind, runM_get, runM_emit]

/-- Witness for C7 on a vault with no workspaces file. -/
theorem C7_backup_missing_sentinel_witness :
    ((∀ n, initStEmpty.oracle n = true) ∧ lookupFs initStEmpty.files FPath.wsJson = none) ∧
    ((runM Offline.createBackup initStEmpty).1 = Except.ok PathStr.empty ∧
    (runM Offline.beginTransaction initStEmpty).1 = Except.ok () ∧
    ((runM Offline.beginTransaction initStEmpty).2).txPath = some PathStr.empty ∧
    runM Offline.rollbackTransaction ((runM Offline.beginTransaction initStEmpty).2)
      = (Except.ok (),
         {(runM Offline.beginTransaction initStEmpty).2 with
            trace := ((runM Offline.beginTransaction initStEmpty).2).trace
              ++ [Ev.rollbackNoop]})) :=
  ⟨⟨fun _ => rfl, rfl⟩, C7_backup_missing_sentinel initStEmpty (fun _ => rfl) rfl⟩

/-! ## Plugin manager run lemmas -/

/-- The parsed document persisted at the workspaces path, if any. -/
def persistedDoc (s : St) : Option WorkspacesData :=
  match lookupFs s.files .wsJson with
  | some (.wsDoc d) => some d
  | _ => none

theorem length_insertDesc (x : FPath) (l : List FPath) :
    (Plugin.insertDesc x l).length = l.length + 1 := by
  induction l with
  | nil => simp [Plugin.insertDesc]
  | cons y rest ih =>
    by_cases h : Plugin.tsDescLe x y <;> simp [Plugin.insertDesc, h, ih]

theorem length_sortDesc (l : List FPath) : (Plugin.sortDesc l).length = l.length := by
  induction l with
  | nil => simp [Plugin.sortDesc]
  | cons x rest ih => simp [Plugin.sortDesc, length_insertDesc, ih]

theorem runM_getWorkspacesP_doc (s : St) (d : WorkspacesData)
    (hok : ∀ n, s.oracle n = true)
    (hd : lookupFs s.files .wsJson = some (.wsDoc d)) :
    runM Plugin.getWorkspaces s = (Except.ok d, {s with idx := s.idx + 1}) := by
  rw [Plugin.getWorkspaces, runM_tryCatch, runM_bind, runM_fsRead _ _ (hok _), hd]
  simp [runM_pure]

theorem runM_pruneP_noremove (s : St) (hok : ∀ n, s.oracle n = true)
    (hlen : (((s.files.map (·.1)).filter inBackupDir).filter Plugin.endsWithJson).length
      ≤ Plugin.maxBackups) :
    runM Plugin.pruneOldBackups s
      = (Except.ok (), {s with idx := s.idx + 1, trace := s.trace ++ [Ev.pruneRan]}) := by
  rw [Plugin.pruneOldBackups, runM_tryCatch, runM_bind, runM_emit]
  simp only []
  rw [runM_bind, runM_fsList _ _ (by simpa using hok _)]
  simp only []
  rw [if_neg (by rw [length_sortDesc]; simpa using hlen)]
  simp [runM_pure]

theorem runM_createBackupP_newdir (s : St) (hok : ∀ n, s.oracle n = true) (b : Bytes)
    (hdoc : lookupFs s.files .wsJson = some b)
    (hdir : ((lookupFs s.files FPath.backupDir).isSome || s.dirs.contains FPath.backupDir)
      = false)
    (hlen : ((((setFs s.files (FPath.backupFile (tsStr s.clock)) b).map (·.1)).filter
        inBackupDir).filter Plugin.endsWithJson).length ≤ Plugin.maxBackups) :
    runM Plugin.createBackup s
      = (Except.ok (FPath.backupFile (tsStr s.clock)),
         {s with idx := s.idx + 5, clock := s.clock + 1,
                 dirs := FPath.backupDir :: s.dirs,
                 files := setFs s.files (FPath.backupFile (tsStr s.clock)) b,
                 trace := s.trace ++ [Ev.pruneRan]}) := by
  rw [Plugin.createBackup, runM_bind, runM_getTime]
  simp only []
  rw [runM_tryCatch, runM_bind]
  rw [Plugin.ensureFolder, runM_bind, runM_fsExists _ _ (by simpa using hok _)]
  simp only []
  rw [if_neg (by
    simp only [Bool.or_eq_false_iff] at hdir
    simp only [hdir.1, hdir.2, Bool.or_self]
    exact Bool.false_ne_true)]
  rw [runM_fsMkdir _ _ (by simpa using hok _)]
  simp only []
  rw [runM_bind, runM_fsRead _ _ (by simpa using hok _)]
  simp only [show lookupFs s.files FPath.wsJson = some b from hdoc, hdoc]
  rw [runM_bind, runM_fsWrite _ _ _ (by simpa using hok _)]
  simp only []
  rw [runM_bind]
  rw [runM_pruneP_noremove _ (by simpa using hok) (by simpa using hlen)]
  simp [runM_pure]

theorem deleteAllDoc_none (d : WorkspacesData) (name : String) (w : WL) (ids : List String)
    (k : Nat) (hw : lookupWs d.workspaces name = some w)
    (hnone : ∀ tid ∈ ids, findInNode tid w.main = none) :
    Plugin.deleteAllDoc d name ids k = (d, k) := by
  induction ids generalizing k with
  | nil => simp [Plugin.deleteAllDoc]
  | cons tid rest ih =>
    have hfind := hnone tid (by simp)
    have hfalse : (removeFromNode tid w.main).2 = false := by
      rw [remove_iff_find, hfind]
      rfl
    rcases hrem : removeFromNode tid w.main with ⟨m', bb⟩
    rw [hrem] at hfalse
    simp at hfalse
    subst hfalse
    simp only [Plugin.deleteAllDoc, hw, hrem]
    exact ih k (fun t ht => hnone t (by simp [ht]))

theorem runM_commitP (s : St) :
    runM Plugin.commitTransaction s
      = (Except.ok (), {s with trace := s.trace ++ [Ev.committed], txPath := none}) := by
  simp [Plugin.commitTransaction, runM_bind, runM_emit, runM_setTx]

/-- C6 (amended): deleting from an existing layout with a request list of
which zero ids are found leaves the persisted document (and hence the
layout's `mtime`) unchanged and still reports success; success is
reported as the plain boolean `true` — the count of removed tabs is only
logged, not returned to the caller. -/
theorem C6_delete_zero_found (d : WorkspacesData) (name : String) (w : WL)
    (ids : List String)
    (hw : lookupWs d.workspaces name = some w)
    (hnone : ∀ tid ∈ ids, findInNode tid w.main = none) :
    (runM (Plugin.deleteTabsFromWorkspace name ids) (initSt d)).1 = Except.ok true ∧
    persistedDoc (runM (Plugin.deleteTabsFromWorkspace name ids) (initSt d)).2 = some d := by
  have hdel := deleteAllDoc_none d name w ids 0 hw hnone
  constructor <;>
    simp [Plugin.deleteTabsFromWorkspace, runM_tryCatch, runM_bind,
      Plugin.beginTransaction, runM_emit, runM_createBackupP_newdir, runM_setTx,
      runM_getWorkspacesP_doc, hdel, hw, runM_pure, runM_map, runM_commitP, initSt,
      lookupFs, setFs, inBackupDir, Plugin.endsWithJson, persistedDoc, Plugin.maxBackups]

/-- A document with one layout `A` holding a single tabs group with one
file-bearing leaf `t1`. -/
def wDel : WL :=
  { main := .mk "tg" .tabs (.some (.cons (sampleLeaf "t1" "f1.md") .nil)) none none }

def docDel : WorkspacesData :=
  { workspaces := [("A", wDel)], active := "A" }

/-- Witness for C6 at a concrete document and a request list whose only
id is absent. -/
theorem C6_delete_zero_found_witness :
    (lookupWs docDel.workspaces "A" = some wDel ∧
      (∀ tid ∈ ["missing"], findInNode tid wDel.main = none)) ∧
    ((runM (Plugin.deleteTabsFromWorkspace "A" ["missing"]) (initSt docDel)).1
        = Except.ok true ∧
      persistedDoc (runM (Plugin.deleteTabsFromWorkspace "A" ["missing"]) (initSt docDel)).2
        = some docDel) :=
  ⟨⟨by decide, by decide⟩,
   C6_delete_zero_found docDel "A" wDel ["missing"] (by decide) (by decide)⟩

/-- C6 counterexample: the caller does not receive a count of removed
tabs — a zero-removal delete and a one-removal delete return the very
same value `true`; the differing counts exist only inside the run. -/
theorem C6_count_not_returned_cex :
    (runM (Plugin.deleteTabsFromWorkspace "A" ["missing"]) (initSt docDel)).1
      = Except.ok true ∧
    (runM (Plugin.deleteTabsFromWorkspace "A" ["t1"]) (initSt docDel)).1
      = Except.ok true ∧
    (Plugin.deleteAllDoc docDel "A" ["missing"] 0).2 = 0 ∧
    (Plugin.deleteAllDoc docDel "A" ["t1"] 0).2 = 1 :=
  ⟨rfl, rfl, by decide, by decide⟩

/-! ## C5: the insertion fallback -/

instance {e a : Type} [DecidableEq e] [DecidableEq a] : DecidableEq (Except e a) :=
  fun x y =>
    match x, y with
    | .ok v, .ok w =>
      if h : v = w then isTrue (by rw [h])
      else isFalse (by intro hc; injection hc; contradiction)
    | .error u, .error u' =>
      if h : u = u' then isTrue (by rw [h])
      else isFalse (by intro hc; injection hc; contradiction)
    | .ok _, .error _ => isFalse (by intro hc; exact Except.noConfusion hc)
    | .error _, .ok _ => isFalse (by intro hc; exact Except.noConfusion hc)

/-- A main that is a `split` (direction horizontal) holding one bare
leaf: it contains no `tabs`-type node. -/
def mainSplit5 : LC :=
  .mk "m" .split (.some (.cons (sampleLeaf "a" "f.md") .nil)) none (some "horizontal")

def tabC5 : LC := sampleLeaf "t9" "t9.md"

/-- C5 counterexample, both variants: the plugin's `addTabToWorkspace`
does NOT wrap a `split` main without any `tabs` node — the new tabs
container is appended to the existing split's children, the direction
stays `horizontal`, and the original main is not a child of the result;
and the offline `addTabToWorkspace`, on the claim's own bare-leaf
example, returns the workspace UNCHANGED with only a logged error — the
tab is silently dropped, so not every layout can receive a tab. -/
theorem C5_split_without_tabs_not_wrapped_cex :
    findFirstTabGroup mainSplit5 = none ∧
    addTabToMain tabC5 "tabs-9" mainSplit5
      = .mk "m" .split
          (.some (.cons (sampleLeaf "a" "f.md")
            (.cons (.mk "tabs-9" .tabs (.some (.cons tabC5 .nil)) none none) .nil)))
          none (some "horizontal") ∧
    (addTabToMain tabC5 "tabs-9" mainSplit5).direction ≠ some "vertical" ∧
    (runM (Offline.addOffTab { main := sampleLeaf "a" "n.md" } tabC5) initStEmpty).1
      = Except.ok { main := sampleLeaf "a" "n.md" } ∧
    (runM (Offline.addOffTab { main := sampleLeaf "a" "n.md" } tabC5) initStEmpty).2.trace
      = [Ev.warned] := by
  refine ⟨by decide, by decide, by decide, by decide, by decide⟩

/-- C5 (amended): when no `tabs` node exists in `main`, the two cited
implementations diverge.  PLUGIN (`addTabToMain`): the wrap happens only
if `main` is not a `split` or has no children array — then the original
`main` becomes the sole first child of `main` turned into a vertical
split, with a fresh `tabs` node holding the inserted tab as second
child; a `split` main with children is left in place and merely gets
the fresh `tabs` node (holding the tab) appended; in either case a
well-formed layout receives the tab — the extracted-tab count grows by
the tab's own extraction count.  OFFLINE (`addOffTab`): there is no
wrap at all — a `split` main with a children array gets a fresh `tabs`
node holding the tab appended, but any other main (the claim's own
bare-leaf example included) is returned UNCHANGED with only a logged
error: the tab is silently dropped, so in the offline variant not every
layout can receive a tab. -/
theorem C5_insert_fallback (P : TabInfo → Bool) (tab : LC) (tsId : String)
    (i : String) (t : NType) (ch : Kids) (st : Option LeafState) (d : Option String)
    (hno : findFirstTabGroup (.mk i t ch st d) = none) :
    ((t ≠ NType.split ∨ ch = Kids.none) →
      addTabToMain tab tsId (.mk i t ch st d)
        = .mk i .split
            (.some (.cons (.mk i t ch st d)
              (.cons (.mk tsId .tabs (.some (.cons tab .nil)) none none) .nil)))
            st (some "vertical")) ∧
    (∀ f, t = NType.split → ch = Kids.some f →
      addTabToMain tab tsId (.mk i t ch st d)
        = .mk i .split
            (.some (appendForest f (.mk tsId .tabs (.some (.cons tab .nil)) none none)))
            st d) ∧
    (wfNode (.mk i t ch st d) = true →
      countTabsP P (addTabToMain tab tsId (.mk i t ch st d))
        = countTabsP P (.mk i t ch st d) + countTabsP P tab) ∧
    (∀ (w : WL) (s : St), w.main = LC.mk i t ch st d →
      (t ≠ NType.split ∨ ch = Kids.none) →
      runM (Offline.addOffTab w tab) s
        = (Except.ok w, {s with trace := s.trace ++ [Ev.warned]})) ∧
    (∀ (w : WL) (s : St) (f : Forest), w.main = LC.mk i t ch st d →
      t = NType.split → ch = Kids.some f →
      runM (Offline.addOffTab w tab) s
        = (Except.ok {w with
              main := LC.mk i NType.split
                (.some (appendForest f
                  (.mk ("tabs-" ++ tsStr s.clock) .tabs (.some (.cons tab .nil)) none none)))
                st d},
           {s with clock := s.clock + 1})) := by
  have htt : ¬ t = NType.tabs := by
    intro hteq
    subst hteq
    cases ch <;> simp [findFirstTabGroup] at hno
  refine ⟨?_, ?_, fun hwf => addTabToMain_count P tab tsId _ hwf, ?_, ?_⟩
  · intro hcond
    simp only [addTabToMain, hno]
    rw [if_pos hcond]
  · intro f ht hch
    subst ht
    subst hch
    simp only [addTabToMain, hno]
    rw [if_neg (by simp)]
  · intro w s hw hcond
    cases t with
    | tabs => exact absurd rfl htt
    | split =>
      rcases hcond with ht | hch
      · exact absurd rfl ht
      · subst hch
        simp [Offline.addOffTab, hw, hno, runM_bind, runM_map, runM_emit, runM_pure]
    | leaf =>
      cases ch with
      | none => simp [Offline.addOffTab, hw, hno, runM_bind, runM_map, runM_emit, runM_pure]
      | some f => simp [Offline.addOffTab, hw, hno, runM_bind, runM_map, runM_emit, runM_pure]
  · intro w s f hw ht hch
    subst ht
    subst hch
    simp [Offline.addOffTab, hw, hno, runM_bind, runM_map, runM_getTime, runM_pure]

/-- Witness for C5 at the claim's own example: a main that is a single
bare leaf is wrapped by the plugin variant (tab count grows by one), and
the very same layout has the tab silently dropped by the offline
variant. -/
theorem C5_insert_fallback_witness :
    findFirstTabGroup (sampleLeaf "a" "n.md") = none ∧
    addTabToMain tabC5 "tabs-0" (sampleLeaf "a" "n.md")
      = LC.mk "a" .split
          (.some (.cons (sampleLeaf "a" "n.md")
            (.cons (.mk "tabs-0" .tabs (.some (.cons tabC5 .nil)) none none) .nil)))
          (some ⟨"markdown", some "n.md", none, none⟩) (some "vertical") ∧
    countTabsP (fun _ => true) (addTabToMain tabC5 "tabs-0" (sampleLeaf "a" "n.md"))
      = countTabsP (fun _ => true) (sampleLeaf "a" "n.md")
        + countTabsP (fun _ => true) tabC5 ∧
    runM (Offline.addOffTab { main := sampleLeaf "a" "n.md" } tabC5) initStEmpty
      = (Except.ok { main := sampleLeaf "a" "n.md" },
         { initStEmpty with trace := initStEmpty.trace ++ [Ev.warned] }) := by
  have h := C5_insert_fallback (fun _ => true) tabC5 "tabs-0" "a" NType.leaf Kids.none
    (some ⟨"markdown", some "n.md", none, none⟩) none (by decide)
  exact ⟨by decide, h.1 (by decide), h.2.2.1 (by decide),
    h.2.2.2.1 { main := sampleLeaf "a" "n.md" } initStEmpty rfl (by decide)⟩

/-! ## C4: copy between workspaces -/

/-- `findTabRecursive` only ever returns a node whose id is the
requested one (and which is of type `leaf`). -/
theorem findRecNode_id (tid : String) :
    ∀ n : LC, ∀ par tab p,
      Offline.findRecNode tid par n = Except.ok (some (tab, p)) →
        tab.id = tid ∧ tab.ntype = NType.leaf := by
  have H := lc_forest_ind
    (fun n => ∀ par tab p,
      Offline.findRecNode tid par n = Except.ok (some (tab, p)) →
        tab.id = tid ∧ tab.ntype = NType.leaf)
    (fun f => ∀ par tab p,
      Offline.findRecForest tid par f = Except.ok (some (tab, p)) →
        tab.id = tid ∧ tab.ntype = NType.leaf)
    (fun i t ch st d ih => by
      intro par tab p h
      cases ch with
      | none =>
        simp only [Offline.findRecNode] at h
        by_cases hcond : i = tid ∧ t = NType.leaf
        · rw [if_pos hcond] at h
          cases par with
          | none => simp at h
          | some p' =>
            simp only [Except.ok.injEq, Option.some.injEq, Prod.mk.injEq] at h
            obtain ⟨h1, h2⟩ := h
            subst h1
            exact ⟨by simp [LC.id, hcond.1], by simp [LC.ntype, hcond.2]⟩
        · rw [if_neg hcond] at h
          simp at h
      | some f =>
        simp only [Offline.findRecNode] at h
        by_cases hcond : i = tid ∧ t = NType.leaf
        · rw [if_pos hcond] at h
          cases par with
          | none => simp at h
          | some p' =>
            simp only [Except.ok.injEq, Option.some.injEq, Prod.mk.injEq] at h
            obtain ⟨h1, h2⟩ := h
            subst h1
            exact ⟨by simp [LC.id, hcond.1], by simp [LC.ntype, hcond.2]⟩
        · rw [if_neg hcond] at h
          exact ih f rfl _ tab p h)
    (by intro par tab p h; simp [Offline.findRecForest] at h)
    (fun c rest ihc ihr => by
      intro par tab p h
      cases hc : Offline.findRecNode tid (some par) c with
      | error e => simp [Offline.findRecForest, hc] at h
      | ok r =>
        cases r with
        | some r' =>
          rcases r' with ⟨tb, pp⟩
          simp only [Offline.findRecForest, hc, Except.ok.injEq,
            Option.some.injEq, Prod.mk.injEq] at h
          obtain ⟨h1, h2⟩ := h
          subst h1
          exact ihc (some par) tb pp hc
        | none =>
          simp only [Offline.findRecForest, hc] at h
          exact ihr par tab p h)
  exact H.1

/-- The document the offline copy persists: the target layout gets the
found tab inserted into its first tabs group, then its `mtime` stamped
with the second timestamp of the run. -/
def copyResultDoc (d : WorkspacesData) (tgt : String) (tw : WL) (tab : LC) :
    WorkspacesData :=
  setMtimeDoc
    {d with
      workspaces := setWs d.workspaces tgt {tw with main := (insertNode tab tw.main).1}}
    tgt (tsStr 1)

/-- C4 (amended): the offline copy looks the tab up with
`findTabRecursive`, deep-clones it (`JSON.parse(JSON.stringify(...))`,
the identity on values) and inserts the clone into the target's first
`tabs` group; the source entry (including its `mtime`) is untouched,
the target `mtime` is stamped, and the inserted tab carries the SAME id
as the source tab — no new id is minted.  Instantiating the predicate
with an id or filePath match shows the copied tab appears in the
target's flatten. -/
theorem C4_copy_same_id (d : WorkspacesData) (src tgt tid : String) (sw tw : WL)
    (tab p g : LC) (P : TabInfo → Bool)
    (hsw : lookupWs d.workspaces src = some sw)
    (htw : lookupWs d.workspaces tgt = some tw)
    (hne : tgt ≠ src)
    (hfind : Offline.findRecNode tid none sw.main = Except.ok (some (tab, p)))
    (hg : findFirstTabGroup tw.main = some g) :
    (runM (Offline.copyTabsBetweenWorkspaces src tgt [tid]) (initSt d)).1
      = Except.ok true ∧
    persistedDoc (runM (Offline.copyTabsBetweenWorkspaces src tgt [tid]) (initSt d)).2
      = some (copyResultDoc d tgt tw tab) ∧
    tab.id = tid ∧
    lookupWs (copyResultDoc d tgt tw tab).workspaces src = some sw ∧
    (wfNode tw.main = true →
      countTabsP P (insertNode tab tw.main).1
        = countTabsP P tw.main + countTabsP P tab) := by
  have hins : (insertNode tab tw.main).2 = true := by
    rw [insert_iff_find, hg]
    rfl
  refine ⟨?_, ?_, (findRecNode_id tid sw.main none tab p hfind).1, ?_,
    fun hwf => insertNode_count P tab tw.main hwf hins⟩
  · simp [Offline.copyTabsBetweenWorkspaces, runM_bind, runM_tryCatch,
      Offline.beginTransaction, runM_emit, runM_createBackupO_ok, runM_setTx,
      runM_getWorkspacesO_doc, hsw, htw, List.foldlM, Offline.copyOne, hfind,
      Offline.addOffTab, hg, runM_pure, runM_getTime, Offline.saveWorkspaces,
      Offline.commitTransaction, runM_writeAtomicallyO_ok, runM_map, initSt,
      lookupFs, setFs, delFs, persistedDoc, setMtimeDoc, lookupWs_setWs_self,
      copyResultDoc]
  · simp [Offline.copyTabsBetweenWorkspaces, runM_bind, runM_tryCatch,
      Offline.beginTransaction, runM_emit, runM_createBackupO_ok, runM_setTx,
      runM_getWorkspacesO_doc, hsw, htw, List.foldlM, Offline.copyOne, hfind,
      Offline.addOffTab, hg, runM_pure, runM_getTime, Offline.saveWorkspaces,
      Offline.commitTransaction, runM_writeAtomicallyO_ok, runM_map, initSt,
      lookupFs, setFs, delFs, persistedDoc, setMtimeDoc, lookupWs_setWs_self,
      copyResultDoc]
  · simp [copyResultDoc, setMtimeDoc, lookupWs_setWs_self, lookupWs_setWs_ne, hne, hsw]

/-- Concrete copy scenario: source `A` holds tab `t1`, target `B` has an
empty tabs group. -/
def wSrc4 : WL :=
  { main := .mk "sm" .split
      (.some (.cons
        (.mk "tg" .tabs (.some (.cons (sampleLeaf "t1" "f1.md") .nil)) none none) .nil))
      none (some "vertical") }

def wTgt4 : WL :=
  { main := .mk "tm" .split
      (.some (.cons (.mk "tg2" .tabs (.some .nil) none none) .nil))
      none (some "vertical") }

def doc4 : WorkspacesData :=
  { workspaces := [("A", wSrc4), ("B", wTgt4)], active := "A" }

/-- Witness for C4 on the concrete scenario. -/
theorem C4_copy_same_id_witness :
    (lookupWs doc4.workspaces "A" = some wSrc4 ∧
     lookupWs doc4.workspaces "B" = some wTgt4 ∧
     ("B" : String) ≠ "A" ∧
     Offline.findRecNode "t1" none wSrc4.main
       = Except.ok (some (sampleLeaf "t1" "f1.md",
           .mk "tg" .tabs (.some (.cons (sampleLeaf "t1" "f1.md") .nil)) none none)) ∧
     findFirstTabGroup wTgt4.main = some (.mk "tg2" .tabs (.some .nil) none none)) ∧
    ((runM (Offline.copyTabsBetweenWorkspaces "A" "B" ["t1"]) (initSt doc4)).1
        = Except.ok true ∧
     persistedDoc (runM (Offline.copyTabsBetweenWorkspaces "A" "B" ["t1"]) (initSt doc4)).2
        = some (copyResultDoc doc4 "B" wTgt4 (sampleLeaf "t1" "f1.md")) ∧
     (sampleLeaf "t1" "f1.md").id = "t1" ∧
     lookupWs (copyResultDoc doc4 "B" wTgt4 (sampleLeaf "t1" "f1.md")).workspaces "A"
        = some wSrc4 ∧
     (wfNode wTgt4.main = true →
       countTabsP (fun tb => tb.id == "t1")
           (insertNode (sampleLeaf "t1" "f1.md") wTgt4.main).1
         = countTabsP (fun tb => tb.id == "t1") wTgt4.main
           + countTabsP (fun tb => tb.id == "t1") (sampleLeaf "t1" "f1.md"))) :=
  ⟨⟨by decide, by decide, by decide, by decide, by decide⟩,
   C4_copy_same_id doc4 "A" "B" "t1" wSrc4 wTgt4 (sampleLeaf "t1" "f1.md")
     (.mk "tg" .tabs (.some (.cons (sampleLeaf "t1" "f1.md") .nil)) none none)
     (.mk "tg2" .tabs (.some .nil) none none)
     (fun tb => tb.id == "t1")
     (by decide) (by decide) (by decide) (by decide) (by decide)⟩

/-- C4 counterexample: after copying `t1` from `A` to `B`, the only tab
in the persisted `B` carries id `t1` — identical to the id still present
in `A`; no tab with a new id exists anywhere in the result. -/
theorem C4_no_new_id_cex :
    (runM (Offline.copyTabsBetweenWorkspaces "A" "B" ["t1"]) (initSt doc4)).1
      = Except.ok true ∧
    ((persistedDoc (runM (Offline.copyTabsBetweenWorkspaces "A" "B" ["t1"])
          (initSt doc4)).2).bind
        (fun d' => (lookupWs d'.workspaces "B").map
          (fun w => (extractFromNode w.main).map TabInfo.id)))
      = some ["t1"] ∧
    ((persistedDoc (runM (Offline.copyTabsBetweenWorkspaces "A" "B" ["t1"])
          (initSt doc4)).2).bind
        (fun d' => (lookupWs d'.workspaces "A").map
          (fun w => (extractFromNode w.main).map TabInfo.id)))
      = some ["t1"] := by
  refine ⟨by decide, by decide, by decide⟩

/-! ## C3: the atomic writer -/

/-- A second document value, distinct from `docDel`, to observe that a
write really replaced the target. -/
def docDel2 : WorkspacesData :=
  { workspaces := [("A", wDel)], active := "" }

/-- A run of the plugin atomic writer against a target that exists and a
storage oracle that rejects exactly the `k`-th primitive call. -/
def s3k (k : Nat) : St :=
  { files := [(.wsJson, .wsDoc docDel)], oracle := fun n => n != k }

/-- The storage primitive the plugin atomic writer issues at slot `k`
(target present): write tmp, read tmp back, exists, read target, write
bak, exists, remove target, rename. -/
def opAt3 : Nat → String
  | 0 => "write"
  | 1 => "read"
  | 2 => "exists"
  | 3 => "read"
  | 4 => "write"
  | 5 => "exists"
  | 6 => "remove"
  | _ => "rename"

/-- C3 (amended): the plugin atomic writer writes the new bytes to the
temporary path, reads them back and validates them before touching the
target; a validation failure or an I/O failure at any step before the
target-removal step leaves the target untouched, removes the temporary
file (when it was created) and re-raises the original failure; on
success the target holds the new bytes and the temporary file is gone.
(The remove-then-rename window and the offline variant's missing
validation are the counterexample.) -/
theorem C3_atomic_writer :
    ((runM (Plugin.writeAtomically (.wsDoc docDel2)) (initSt docDel)).1 = Except.ok () ∧
     lookupFs (runM (Plugin.writeAtomically (.wsDoc docDel2)) (initSt docDel)).2.files
         .wsJson = some (.wsDoc docDel2) ∧
     lookupFs (runM (Plugin.writeAtomically (.wsDoc docDel2)) (initSt docDel)).2.files
         .wsTmp = none) ∧
    ((runM (Plugin.writeAtomically (.garbage 9)) (initSt docDel)).1
       = Except.error (.thrown "Data validation failed") ∧
     lookupFs (runM (Plugin.writeAtomically (.garbage 9)) (initSt docDel)).2.files
         .wsJson = some (.wsDoc docDel) ∧
     lookupFs (runM (Plugin.writeAtomically (.garbage 9)) (initSt docDel)).2.files
         .wsTmp = none) ∧
    (∀ k ∈ [0, 1, 2, 3, 4, 5, 6],
      (runM (Plugin.writeAtomically (.wsDoc docDel2)) (s3k k)).1
        = Except.error (.io (opAt3 k)) ∧
      lookupFs (runM (Plugin.writeAtomically (.wsDoc docDel2)) (s3k k)).2.files
          .wsJson = some (.wsDoc docDel) ∧
      lookupFs (runM (Plugin.writeAtomically (.wsDoc docDel2)) (s3k k)).2.files
          .wsTmp = none) := by
  refine ⟨⟨by decide, by decide, by decide⟩, ⟨by decide, by decide, by decide⟩, by decide⟩

/-- Witness for C3's quantified fault clause at slot 3. -/
theorem C3_atomic_writer_witness :
    (3 : Nat) ∈ [0, 1, 2, 3, 4, 5, 6] ∧
    ((runM (Plugin.writeAtomically (.wsDoc docDel2)) (s3k 3)).1
        = Except.error (.io (opAt3 3)) ∧
     lookupFs (runM (Plugin.writeAtomically (.wsDoc docDel2)) (s3k 3)).2.files
         .wsJson = some (.wsDoc docDel) ∧
     lookupFs (runM (Plugin.writeAtomically (.wsDoc docDel2)) (s3k 3)).2.files
         .wsTmp = none) :=
  ⟨by decide, C3_atomic_writer.2.2 3 (by decide)⟩

/-- C3 counterexample: the target is NOT guaranteed untouched up to the
rename — the plugin writer removes the target before renaming, so a
failure of the rename itself (slot 7) loses the target entirely (only
the `.bak` sibling written earlier remains).  And the offline variant
performs no validation at all: writing unparsable bytes succeeds and
persists them. -/
theorem C3_remove_before_rename_cex :
    lookupFs (s3k 7).files .wsJson = some (.wsDoc docDel) ∧
    (runM (Plugin.writeAtomically (.wsDoc docDel2)) (s3k 7)).1
      = Except.error (.io "rename") ∧
    lookupFs (runM (Plugin.writeAtomically (.wsDoc docDel2)) (s3k 7)).2.files
        .wsJson = none ∧
    (runM (Offline.writeAtomically (.garbage 9)) (initSt docDel)).1 = Except.ok () ∧
    lookupFs (runM (Offline.writeAtomically (.garbage 9)) (initSt docDel)).2.files
        .wsJson = some (.garbage 9) := by
  refine ⟨by decide, by decide, by decide, by decide, by decide⟩

/-! ## C2: the move invariant -/

theorem runM_createBackupP_dirExists (s : St) (hok : ∀ n, s.oracle n = true) (b : Bytes)
    (hdoc : lookupFs s.files .wsJson = some b)
    (hdir : ((lookupFs s.files FPath.backupDir).isSome || s.dirs.contains FPath.backupDir)
      = true)
    (hlen : ((((setFs s.files (FPath.backupFile (tsStr s.clock)) b).map (·.1)).filter
        inBackupDir).filter Plugin.endsWithJson).length ≤ Plugin.maxBackups) :
    runM Plugin.createBackup s
      = (Except.ok (FPath.backupFile (tsStr s.clock)),
         {s with idx := s.idx + 4, clock := s.clock + 1,
                 files := setFs s.files (FPath.backupFile (tsStr s.clock)) b,
                 trace := s.trace ++ [Ev.pruneRan]}) := by
  rw [Plugin.createBackup, runM_bind, runM_getTime]
  simp only []
  rw [runM_tryCatch, runM_bind]
  rw [Plugin.ensureFolder, runM_bind, runM_fsExists _ _ (by simpa using hok _)]
  simp only []
  rw [if_pos (by simpa using hdir)]
  rw [runM_pure]
  simp only []
  rw [runM_bind, runM_fsRead _ _ (by simpa using hok _)]
  simp only [show lookupFs s.files FPath.wsJson = some b from hdoc, hdoc]
  rw [runM_bind, runM_fsWrite _ _ _ (by simpa using hok _)]
  simp only []
  rw [runM_bind]
  rw [runM_pruneP_noremove _ (by simpa using hok) (by simpa using hlen)]
  simp [runM_pure]

theorem runM_writeAtomicallyP_ok (s : St) (hok : ∀ n, s.oracle n = true)
    (d' : WorkspacesData) (b0 : Bytes)
    (hdoc : lookupFs s.files .wsJson = some b0) :
    runM (Plugin.writeAtomically (.wsDoc d')) s
      = (Except.ok (),
         {s with idx := s.idx + 8,
                 files := setFs (delFs (delFs (setFs (setFs s.files .wsTmp (.wsDoc d'))
                     .wsBak b0) .wsJson) .wsTmp) .wsJson (.wsDoc d')}) := by
  rw [Plugin.writeAtomically, runM_tryCatch, runM_bind,
    runM_fsWrite _ _ _ (by simpa using hok _)]
  simp only []
  rw [runM_bind, runM_fsRead _ _ (by simpa using hok _)]
  rw [lookupFs_setFs_self]
  simp only [Plugin.validateData]
  rw [runM_bind, runM_pure]
  simp only []
  rw [runM_bind, runM_fsExists _ _ (by simpa using hok _)]
  simp only []
  rw [if_pos (by
    rw [lookupFs_setFs_ne _ _ _ _ (by intro hc; exact FPath.noConfusion hc), hdoc]
    simp)]
  rw [runM_bind, runM_fsRead _ _ (by simpa using hok _)]
  rw [lookupFs_setFs_ne _ _ _ _ (by intro hc; exact FPath.noConfusion hc), hdoc]
  simp only []
  rw [runM_bind, runM_fsWrite _ _ _ (by simpa using hok _)]
  simp only []
  rw [runM_bind, runM_fsExists _ _ (by simpa using hok _)]
  simp only []
  rw [if_pos (by
    rw [lookupFs_setFs_ne _ _ _ _ (by intro hc; exact FPath.noConfusion hc)]
    rw [lookupFs_setFs_ne _ _ _ _ (by intro hc; exact FPath.noConfusion hc), hdoc]
    simp)]
  rw [runM_bind, runM_fsRemove _ _ (by simpa using hok _)]
  simp only []
  rw [runM_fsRename _ _ _ (by simpa using hok _)]
  rw [lookupFs_delFs_ne _ _ _ (by intro hc; exact FPath.noConfusion hc)]
  rw [lookupFs_setFs_ne _ _ _ _ (by intro hc; exact FPath.noConfusion hc)]
  rw [lookupFs_setFs_self]

/-- The document transform of a successful single-tab move: the id's
tab count drops to zero in the source layout and becomes one in the
target layout. -/
theorem moveDocCore_counts (d : WorkspacesData) (A B tid : String) (LA LB : WL)
    (t p : LC) (f : String) (c : Nat)
    (hA : lookupWs d.workspaces A = some LA)
    (hB : lookupWs d.workspaces B = some LB)
    (hBA : ¬ B = A)
    (hfind : findInNode tid LA.main = some (t, p))
    (hfile : tabFile t.state = some f)
    (hsrc1 : countIdNode tid LA.main = 1)
    (htgt0 : countIdNode tid LB.main = 0)
    (hwfB : wfNode LB.main = true) :
    ∃ wA' wB',
      lookupWs (Plugin.moveDocCore d A B [tid] c).1.workspaces A = some wA' ∧
      lookupWs (Plugin.moveDocCore d A B [tid] c).1.workspaces B = some wB' ∧
      countTabsId tid wA'.main = 0 ∧
      countTabsId tid wB'.main = 1 := by
  have hAB : ¬ A = B := fun hc => hBA hc.symm
  have hid := findInNode_sound tid LA.main t p hfind
  have hrm2 : (removeFromNode tid LA.main).2 = true := by
    rw [remove_iff_find, hfind]
    rfl
  have hlt := remove_count_lt tid LA.main hrm2
  have hAcnt : countTabsId tid (removeFromNode tid LA.main).1 = 0 := by
    have hle := countTabs_le_countId tid (removeFromNode tid LA.main).1
    simp only [countTabsId]
    omega
  have htcnt : countTabsP (fun r => r.id = tid) t = 1 := by
    rcases t with ⟨ti, tt, tch, tst, td⟩
    obtain ⟨hti, htt⟩ := hid
    simp only [LC.id] at hti
    simp only [LC.ntype] at htt
    subst htt
    rw [countTabsP, extract_leaf_file ti tch tst td f (by simpa [LC.state] using hfile)]
    simp [hti]
  have hBcnt0 : countTabsP (fun r => r.id = tid) LB.main = 0 := by
    have hle := countTabs_le_countId tid LB.main
    omega
  have hBm : ∀ tsId, countTabsId tid (addTabToMain t tsId LB.main) = 1 := by
    intro tsId
    have h := addTabToMain_count (fun r => r.id = tid) t tsId LB.main hwfB
    simp only [countTabsId]
    omega
  obtain ⟨tsId, c', heq⟩ : ∃ tsId c',
      Plugin.addAllDoc d B [t] c
        = ({d with
              workspaces :=
                setWs d.workspaces B {LB with main := addTabToMain t tsId LB.main}},
           c') := by
    by_cases h : addNeedsFreshId LB.main = true
    · exact ⟨"tabs-" ++ tsStr c, c + 1, by simp [Plugin.addAllDoc, hB, h]⟩
    · exact ⟨"", c, by simp [Plugin.addAllDoc, hB, h]⟩
  refine ⟨{LA with main := (removeFromNode tid LA.main).1, mtime := tsStr c'},
    {LB with main := addTabToMain t tsId LB.main, mtime := tsStr (c' + 1)},
    ?_, ?_, by simpa using hAcnt, by simpa using hBm tsId⟩
  · simp only [Plugin.moveDocCore, hA, Plugin.collectTabs, List.filterMap_cons, hfind,
      Option.map_some, Option.map_some', List.filterMap_nil]
    rw [heq]
    simp only [List.map_cons, List.map_nil, hid.1, Plugin.removeAllDoc,
      lookupWs_setWs_ne _ _ _ _ hBA, hA, setMtimeDoc, lookupWs_setWs_self]
    simp [lookupWs_setWs_ne _ _ _ _ hBA, lookupWs_setWs_ne _ _ _ _ hAB, hA,
      lookupWs_setWs_self]
  · simp only [Plugin.moveDocCore, hA, Plugin.collectTabs, List.filterMap_cons, hfind,
      Option.map_some, Option.map_some', List.filterMap_nil]
    rw [heq]
    simp only [List.map_cons, List.map_nil, hid.1, Plugin.removeAllDoc,
      lookupWs_setWs_ne _ _ _ _ hBA, hA, setMtimeDoc, lookupWs_setWs_self]
    simp [lookupWs_setWs_ne _ _ _ _ hBA, lookupWs_setWs_ne _ _ _ _ hAB, hA,
      lookupWs_setWs_self]

theorem addAllDoc_clock_ge (d : WorkspacesData) (name : String) (tabs : List LC) (c : Nat) :
    c ≤ (Plugin.addAllDoc d name tabs c).2 := by
  induction tabs generalizing d c with
  | nil => simp [Plugin.addAllDoc]
  | cons tab rest ih =>
    cases hw : lookupWs d.workspaces name with
    | none => simpa [Plugin.addAllDoc, hw] using ih d c
    | some w =>
      by_cases hfr : addNeedsFreshId w.main = true
      · simp only [Plugin.addAllDoc, hw, hfr, if_pos]
        exact le_trans (Nat.le_succ c) (ih _ _)
      · simp only [Plugin.addAllDoc, hw, hfr, if_neg]
        exact ih _ _

theorem moveDocCore_clock_lb (d : WorkspacesData) (A B tid : String) (LA : WL) (c : Nat)
    (hA : lookupWs d.workspaces A = some LA) :
    c + 2 ≤ (Plugin.moveDocCore d A B [tid] c).2 := by
  simp only [Plugin.moveDocCore, hA]
  have h := addAllDoc_clock_ge d B (Plugin.collectTabs LA [tid]) c
  omega

theorem tsStr_injective (a b : Nat) (h : tsStr a = tsStr b) : a = b := by
  have h2 := congrArg (fun s => s.data.length) h
  simpa [tsStr] using h2

/-- C2 (amended): the move invariant holds under the preconditions the
engine actually relies on: the id must be found by the engine's search
(`findTabInWorkspace`, which matches children only, never the root),
occur exactly once in the source tree, not yet occur in the target tree,
refer to a file-bearing leaf, and the layouts must be distinct and
well-formed.  Then the move reports success, persists exactly the
in-memory transform, and the id's tab count is zero in the resulting
source layout and one in the resulting target layout. -/
theorem C2_move_invariant (d : WorkspacesData) (A B tid : String) (LA LB : WL)
    (t p : LC) (f : String)
    (hA : lookupWs d.workspaces A = some LA)
    (hB : lookupWs d.workspaces B = some LB)
    (hBA : ¬ B = A)
    (hfind : findInNode tid LA.main = some (t, p))
    (hfile : tabFile t.state = some f)
    (hsrc1 : countIdNode tid LA.main = 1)
    (htgt0 : countIdNode tid LB.main = 0)
    (hwfB : wfNode LB.main = true) :
    (runM (Plugin.moveTabsBetweenWorkspaces A B [tid]) (initSt d)).1 = Except.ok true ∧
    persistedDoc (runM (Plugin.moveTabsBetweenWorkspaces A B [tid]) (initSt d)).2
      = some (Plugin.moveDocCore d A B [tid] 1).1 ∧
    (∃ wA', lookupWs (Plugin.moveDocCore d A B [tid] 1).1.workspaces A = some wA' ∧
      countTabsId tid wA'.main = 0) ∧
    (∃ wB', lookupWs (Plugin.moveDocCore d A B [tid] 1).1.workspaces B = some wB' ∧
      countTabsId tid wB'.main = 1) := by
  obtain ⟨wA', wB', hw1, hw2, hw3, hw4⟩ :=
    moveDocCore_counts d A B tid LA LB t p f 1 hA hB hBA hfind hfile hsrc1 htgt0 hwfB
  have hlb := moveDocCore_clock_lb d A B tid LA 1 hA
  rcases hmv : Plugin.moveDocCore d A B [tid] 1 with ⟨D, n⟩
  rw [hmv] at hlb hw1 hw2
  have hn0 : ¬ (n = 0) := by omega
  have hbf : (FPath.backupFile (tsStr 0) = FPath.backupFile (tsStr n)) = False := by
    simp only [eq_iff_iff, iff_false]
    intro hc
    have hts : tsStr 0 = tsStr n := congrArg Plugin.tsOfPath hc
    exact hn0 (tsStr_injective 0 n hts).symm
  refine ⟨?_, ?_, ⟨wA', hw1, hw3⟩, ⟨wB', hw2, hw4⟩⟩
  · simp [Plugin.moveTabsBetweenWorkspaces, runM_tryCatch, runM_bind,
      Plugin.beginTransaction, runM_emit, runM_createBackupP_newdir, runM_setTx,
      runM_getWorkspacesP_doc, hA, hB, hmv, runM_get, runM_set, Plugin.saveWorkspaces,
      runM_createBackupP_dirExists, runM_writeAtomicallyP_ok, runM_commitP, runM_pure,
      runM_map, initSt, lookupFs, setFs, delFs, inBackupDir, Plugin.endsWithJson,
      Plugin.maxBackups, persistedDoc, hbf, lookupFs_setFs_self]
  · simp [Plugin.moveTabsBetweenWorkspaces, runM_tryCatch, runM_bind,
      Plugin.beginTransaction, runM_emit, runM_createBackupP_newdir, runM_setTx,
      runM_getWorkspacesP_doc, hA, hB, hmv, runM_get, runM_set, Plugin.saveWorkspaces,
      runM_createBackupP_dirExists, runM_writeAtomicallyP_ok, runM_commitP, runM_pure,
      runM_map, initSt, lookupFs, setFs, delFs, inBackupDir, Plugin.endsWithJson,
      Plugin.maxBackups, persistedDoc, hbf, lookupFs_setFs_self]

/-- Witness for C2 on the concrete two-layout document. -/
theorem C2_move_invariant_witness :
    (lookupWs doc4.workspaces "A" = some wSrc4 ∧
     lookupWs doc4.workspaces "B" = some wTgt4 ∧
     ¬ ("B" : String) = "A" ∧
     findInNode "t1" wSrc4.main
       = some (sampleLeaf "t1" "f1.md",
           .mk "tg" .tabs (.some (.cons (sampleLeaf "t1" "f1.md") .nil)) none none) ∧
     tabFile (sampleLeaf "t1" "f1.md").state = some "f1.md" ∧
     countIdNode "t1" wSrc4.main = 1 ∧
     countIdNode "t1" wTgt4.main = 0 ∧
     wfNode wTgt4.main = true) ∧
    ((runM (Plugin.moveTabsBetweenWorkspaces "A" "B" ["t1"]) (initSt doc4)).1
        = Except.ok true ∧
     persistedDoc (runM (Plugin.moveTabsBetweenWorkspaces "A" "B" ["t1"]) (initSt doc4)).2
        = some (Plugin.moveDocCore doc4 "A" "B" ["t1"] 1).1 ∧
     (∃ wA', lookupWs (Plugin.moveDocCore doc4 "A" "B" ["t1"] 1).1.workspaces "A"
          = some wA' ∧ countTabsId "t1" wA'.main = 0) ∧
     (∃ wB', lookupWs (Plugin.moveDocCore doc4 "A" "B" ["t1"] 1).1.workspaces "B"
          = some wB' ∧ countTabsId "t1" wB'.main = 1)) :=
  ⟨⟨by decide, by decide, by decide, by decide, by decide, by decide, by decide, by decide⟩,
   C2_move_invariant doc4 "A" "B" "t1" wSrc4 wTgt4 (sampleLeaf "t1" "f1.md")
     (.mk "tg" .tabs (.some (.cons (sampleLeaf "t1" "f1.md") .nil)) none none) "f1.md"
     (by decide) (by decide) (by decide) (by decide) (by decide) (by decide) (by decide)
     (by decide)⟩

/-- A layout whose `main` is itself the file-bearing leaf `t1`. -/
def wRoot2 : WL := { main := sampleLeaf "t1" "f1.md" }

def doc2 : WorkspacesData :=
  { workspaces := [("A", wRoot2), ("B", wTgt4)], active := "A" }

set_option maxHeartbeats 4000000 in
/-- C2 counterexample: `t1` occurs as a file-bearing leaf in A's main
tree (it IS the root), yet `moveTabs` reports success while `t1` is
still the only tab of the persisted A and absent from B — the engine's
`findTabInWorkspace` matches children only, so a root tab is silently
skipped. -/
theorem C2_root_tab_not_moved_cex :
    (extractFromNode wRoot2.main).map TabInfo.id = ["t1"] ∧
    (runM (Plugin.moveTabsBetweenWorkspaces "A" "B" ["t1"]) (initSt doc2)).1
      = Except.ok true ∧
    ((persistedDoc (runM (Plugin.moveTabsBetweenWorkspaces "A" "B" ["t1"])
          (initSt doc2)).2).bind
        (fun d' => (lookupWs d'.workspaces "A").map
          (fun w => (extractFromNode w.main).map TabInfo.id)))
      = some ["t1"] ∧
    ((persistedDoc (runM (Plugin.moveTabsBetweenWorkspaces "A" "B" ["t1"])
          (initSt doc2)).2).bind
        (fun d' => (lookupWs d'.workspaces "B").map
          (fun w => (extractFromNode w.main).map TabInfo.id)))
      = some [] := by
  refine ⟨by decide, by decide, by decide, by decide⟩

/-! ## C8: backup retention and pruning -/

/-- The backup files present in a state. -/
def backupsOf (s : St) : List FPath :=
  (s.files.map (·.1)).filter inBackupDir

/-- Twelve backups with strictly increasing timestamps, plus the
workspaces file. -/
def s8 : St :=
  { files := (.wsJson, .wsDoc docDel)
      :: (List.range 12).map (fun i => (FPath.backupFile (tsStr i), Bytes.wsDoc docDel)) }

/-- The same state with the storage oracle rejecting the very first
primitive call — the `list` call pruning starts with. -/
def s8f : St :=
  { files := (.wsJson, .wsDoc docDel)
      :: (List.range 12).map (fun i => (FPath.backupFile (tsStr i), Bytes.wsDoc docDel)),
    oracle := fun n => n != 0 }

/-- A fresh store where the fifth primitive call — `createBackup`'s
`list` — fails. -/
def sCBf : St :=
  { files := [(.wsJson, .wsDoc docDel)], oracle := fun n => n != 4 }

/-- C8 (amended): each pruning pass keeps exactly the newest
`maxBackups` backups (sorted descending by the timestamp embedded in
the name) and deletes the older ones, and a pruning failure is recorded
and never fails the surrounding operation — `createBackup` still
succeeds when its pruning `list` call fails.  (The per-operation count
`min(N, 10)` of the claim is refuted separately: one successful
operation creates two backups.) -/
theorem C8_prune_keeps_newest :
    ((runM Plugin.pruneOldBackups s8).1 = Except.ok () ∧
     backupsOf (runM Plugin.pruneOldBackups s8).2
       = ((List.range 12).drop 2).map (fun i => FPath.backupFile (tsStr i))) ∧
    ((runM Plugin.pruneOldBackups s8f).1 = Except.ok () ∧
     backupsOf (runM Plugin.pruneOldBackups s8f).2 = backupsOf s8f ∧
     (runM Plugin.pruneOldBackups s8f).2.trace = [Ev.pruneRan, Ev.pruneFailed]) ∧
    ((runM Plugin.createBackup sCBf).1 = Except.ok (FPath.backupFile (tsStr 0)) ∧
     (runM Plugin.createBackup sCBf).2.trace = [Ev.pruneRan, Ev.pruneFailed]) := by
  refine ⟨⟨by decide, by decide⟩, ⟨by decide, by decide, by decide⟩, ⟨by decide, by decide⟩⟩

set_option maxHeartbeats 4000000 in
/-- C8 counterexample: a single successful operation leaves TWO backup
files, not `min(1, 10) = 1` — both `beginTransaction` and
`saveWorkspaces` call `createBackup`. -/
theorem C8_two_backups_per_op_cex :
    (runM (Plugin.moveTabsBetweenWorkspaces "A" "B" ["t1"]) (initSt doc4)).1
      = Except.ok true ∧
    (backupsOf (runM (Plugin.moveTabsBetweenWorkspaces "A" "B" ["t1"])
        (initSt doc4)).2).length = 2 ∧
    ¬ (backupsOf (runM (Plugin.moveTabsBetweenWorkspaces "A" "B" ["t1"])
        (initSt doc4)).2).length = min 1 Plugin.maxBackups := by
  refine ⟨by decide, by decide, by decide⟩

/-! ## C1: rollback on failure between begin and commit -/

/-- The spec example document: `{Source: [f1, f2], Target: []}`. -/
def wSrc1 : WL :=
  { main := .mk "sm" .split
      (.some (.cons
        (.mk "tg" .tabs
          (.some (.cons (sampleLeaf "t1" "f1.md") (.cons (sampleLeaf "t2" "f2.md") .nil)))
          none none) .nil))
      none (some "vertical") }

def wTgt1 : WL :=
  { main := .mk "tm" .split
      (.some (.cons (.mk "tg3" .tabs (.some .nil) none none) .nil))
      none (some "vertical") }

def doc1 : WorkspacesData :=
  { workspaces := [("Source", wSrc1), ("Target", wTgt1)], active := "Source" }

/-- The store with the oracle rejecting exactly primitive call `k`. -/
def st1 (k : Nat) : St :=
  { files := [(.wsJson, .wsDoc doc1)], oracle := fun n => n != k }

def isErr {a : Type} : Except Err a → Bool
  | .error _ => true
  | .ok _ => false

set_option maxHeartbeats 400000000 in
/-- C1: on the spec's own scenario, for EVERY storage-fault slot `k`
strictly between a completed `begin()` and `commit()` (slots 5–17 of the
plugin move: the document read and every primitive of the save, except
slot 9, the pruning `list` call, whose failure is non-fatal by design
and lets the operation succeed), the
failed operation triggers `rollbackTransaction` (the trace records it)
before the failure reaches the caller, and the persisted document is
byte-identical to the document before the call.  The same holds for a
mid-save fault of the plugin copy and delete, and for every post-begin
fault slot of the offline move (which re-raises the error, where the
plugin variant reports it as `false`). -/
theorem C1_rollback_restores_doc :
    (∀ k ∈ [5, 6, 7, 8, 10, 11, 12, 13, 14, 15, 16, 17],
      (runM (Plugin.moveTabsBetweenWorkspaces "Source" "Target" ["t1"]) (st1 k)).1
        = Except.ok false ∧
      Ev.rolledBack
        ∈ (runM (Plugin.moveTabsBetweenWorkspaces "Source" "Target" ["t1"]) (st1 k)).2.trace ∧
      persistedDoc
        (runM (Plugin.moveTabsBetweenWorkspaces "Source" "Target" ["t1"]) (st1 k)).2
        = some doc1) ∧
    ((runM (Plugin.copyTabsBetweenWorkspaces "Source" "Target" ["t1"]) (st1 10)).1
        = Except.ok false ∧
     Ev.rolledBack
       ∈ (runM (Plugin.copyTabsBetweenWorkspaces "Source" "Target" ["t1"]) (st1 10)).2.trace ∧
     persistedDoc
       (runM (Plugin.copyTabsBetweenWorkspaces "Source" "Target" ["t1"]) (st1 10)).2
       = some doc1) ∧
    ((runM (Plugin.deleteTabsFromWorkspace "Source" ["t1"]) (st1 10)).1
        = Except.ok false ∧
     Ev.rolledBack
       ∈ (runM (Plugin.deleteTabsFromWorkspace "Source" ["t1"]) (st1 10)).2.trace ∧
     persistedDoc (runM (Plugin.deleteTabsFromWorkspace "Source" ["t1"]) (st1 10)).2
       = some doc1) ∧
    (∀ k ∈ [3, 4, 5],
      isErr (runM (Offline.moveTabsBetweenWorkspaces "Source" "Target" ["t1"])
          (st1 k)).1 = true ∧
      Ev.rolledBack
        ∈ (runM (Offline.moveTabsBetweenWorkspaces "Source" "Target" ["t1"])
            (st1 k)).2.trace ∧
      persistedDoc
        (runM (Offline.moveTabsBetweenWorkspaces "Source" "Target" ["t1"]) (st1 k)).2
        = some doc1) := by
  refine ⟨by decide, ⟨by decide, by decide, by decide⟩,
    ⟨by decide, by decide, by decide⟩, by decide⟩

/-- Witness for C1's quantified clauses at slot 10 (a fault in the
middle of the atomic write) and slot 4 (offline, the temporary-file
write). -/
theorem C1_rollback_restores_doc_witness :
    ((10 : Nat) ∈ [5, 6, 7, 8, 10, 11, 12, 13, 14, 15, 16, 17] ∧
     (4 : Nat) ∈ [3, 4, 5]) ∧
    (((runM (Plugin.moveTabsBetweenWorkspaces "Source" "Target" ["t1"]) (st1 10)).1
        = Except.ok false ∧
      Ev.rolledBack
        ∈ (runM (Plugin.moveTabsBetweenWorkspaces "Source" "Target" ["t1"]) (st1 10)).2.trace ∧
      persistedDoc
        (runM (Plugin.moveTabsBetweenWorkspaces "Source" "Target" ["t1"]) (st1 10)).2
        = some doc1) ∧
     (isErr (runM (Offline.moveTabsBetweenWorkspaces "Source" "Target" ["t1"])
          (st1 4)).1 = true ∧
      Ev.rolledBack
        ∈ (runM (Offline.moveTabsBetweenWorkspaces "Source" "Target" ["t1"])
            (st1 4)).2.trace ∧
      persistedDoc
        (runM (Offline.moveTabsBetweenWorkspaces "Source" "Target" ["t1"]) (st1 4)).2
        = some doc1)) :=
  ⟨⟨by decide, by decide⟩,
   C1_rollback_restores_doc.1 10 (by decide),
   C1_rollback_restores_doc.2.2.2 4 (by decide)⟩
